import Mathlib

/-!
# Verification of the maxGraph object/XML codec and edge handler

A shallow embedding of `src/packages/core/src/util/serialization/mxObjectCodec.js`
and of the model-commit / drag-state logic of
`src/packages/core/src/view/cell/edge/EdgeHandler.ts`.

JavaScript values are modelled by an explicit universe (`Prim`, `FVal`, `HObj`):
strings are Lean `String`s, numbers are modelled by `Int` (the decimal-string
coercions `parseFloat`/`parseInt`/`toString` are modelled on integer-valued
decimal strings; fractional and exponent forms are outside the model), booleans
are `Bool`.  Objects live in an explicit heap (`Heap`), so JavaScript reference
identity is address equality.  XML nodes are the inductive `XNode`.

Pieces of the library referenced by the codec but not part of its source file
(`mxCodec`, `Utils.isNumeric`/`isInteger`, `mxObjectIdentity.FIELD_NAME`,
`mxGraphModel`'s transaction bracket) are modelled from the specification; each
such definition carries a doc comment starting with `Modelled from the spec`.
-/

namespace MaxGraph

/-! ## JavaScript number/string coercions -/

/-- The decimal digit character for `d < 10`. -/
def dChar : Nat → Char
  | 0 => '0' | 1 => '1' | 2 => '2' | 3 => '3' | 4 => '4'
  | 5 => '5' | 6 => '6' | 7 => '7' | 8 => '8' | 9 => '9'
  | _ => '?'

/-- Numeric value of a digit character. -/
def dVal (c : Char) : Nat := c.toNat - 48

/-- Decimal digit characters of `n`, least significant first; structural
recursion on a fuel bound (`fuel ≥ n` gives the full digit string). -/
def natRevDigitsAux : Nat → Nat → List Char
  | _, 0 => []
  | n, fuel + 1 => if n = 0 then [] else dChar (n % 10) :: natRevDigitsAux (n / 10) fuel

/-- Decimal representation of a natural number (the JS `String(n)` coercion). -/
def natToChars (n : Nat) : List Char :=
  if n = 0 then ['0'] else (natRevDigitsAux n n).reverse

/-- Decimal representation of an integer (the JS number-to-string coercion,
restricted to the integer-valued numbers of the model). -/
def intToChars (n : Int) : List Char :=
  if n < 0 then '-' :: natToChars n.natAbs else natToChars n.toNat

/-- JS string coercion of a model number. -/
def jsNumToString (n : Int) : String := String.mk (intToChars n)

/-- Value of a digit string read most significant first. -/
def natOfDigits (cs : List Char) : Nat := cs.foldl (fun a c => a * 10 + dVal c) 0

/-- Splits an optional leading sign from a character list; the flag records a
leading minus. -/
def stripSign : List Char → Bool × List Char
  | '-' :: rest => (true, rest)
  | '+' :: rest => (false, rest)
  | cs => (false, cs)

/-- Model of `parseFloat`/`parseInt` on the model's integer-valued strings: an
optional sign followed by a longest prefix of decimal digits; `none` models the
`NaN` result when no digits are found. -/
def parseJsNumber (s : String) : Option Int :=
  let p := stripSign s.toList
  let ds := p.2.takeWhile Char.isDigit
  if ds.isEmpty then none
  else some (if p.1 then -(natOfDigits ds : Int) else (natOfDigits ds : Int))

/-- Modelled from the spec: `Utils.isNumeric` (the source file `Utils.js` is not
included); per the spec a value string is numeric when the whole string parses
as a number.  In the model: an optional sign followed by a nonempty run of
digits making up the entire string. -/
def isNumericStr (s : String) : Bool :=
  let cs := (stripSign s.toList).2
  !cs.isEmpty && cs.all Char.isDigit

/-- Modelled from the spec: `Utils.isInteger` (source not included), which is
`String(parseInt(n)) === String(n)`: the string is the canonical decimal form
of the integer it parses to. -/
def isIntegerStr (s : String) : Bool :=
  match parseJsNumber s with
  | some n => jsNumToString n == s
  | none => false

theorem natOfDigits_append (xs : List Char) (c : Char) :
    natOfDigits (xs ++ [c]) = natOfDigits xs * 10 + dVal c := by
  simp [natOfDigits, List.foldl_append]

theorem dVal_dChar {d : Nat} (h : d < 10) : dVal (dChar d) = d := by
  interval_cases d <;> decide

theorem isDigit_dChar {d : Nat} (h : d < 10) : (dChar d).isDigit = true := by
  interval_cases d <;> decide

theorem natOfDigits_revDigitsAux :
    ∀ fuel n, n ≤ fuel → natOfDigits (natRevDigitsAux n fuel).reverse = n := by
  intro fuel
  induction fuel with
  | zero =>
    intro n h
    have : n = 0 := Nat.le_zero.mp h
    subst this
    rfl
  | succ f ih =>
    intro n h
    by_cases h0 : n = 0
    · subst h0; simp [natRevDigitsAux, natOfDigits]
    · rw [natRevDigitsAux, if_neg h0, List.reverse_cons, natOfDigits_append,
        ih (n / 10) (by
          have := Nat.div_lt_self (Nat.pos_of_ne_zero h0) (by decide : 1 < 10)
          omega),
        dVal_dChar (Nat.mod_lt _ (by decide))]
      omega

theorem mem_natRevDigitsAux_isDigit :
    ∀ fuel n c, c ∈ natRevDigitsAux n fuel → c.isDigit = true := by
  intro fuel
  induction fuel with
  | zero => intro n c hc; simp [natRevDigitsAux] at hc
  | succ f ih =>
    intro n c hc
    rw [natRevDigitsAux] at hc
    by_cases h0 : n = 0
    · rw [if_pos h0] at hc; simp at hc
    · rw [if_neg h0] at hc
      rcases List.mem_cons.mp hc with h | h
      · exact h ▸ isDigit_dChar (Nat.mod_lt _ (by decide))
      · exact ih (n / 10) c h

theorem mem_natToChars_isDigit (n : Nat) :
    ∀ c ∈ natToChars n, c.isDigit = true := by
  intro c hc
  unfold natToChars at hc
  split at hc
  · simp at hc; subst hc; decide
  · exact mem_natRevDigitsAux_isDigit n n c (List.mem_reverse.mp hc)

theorem natToChars_ne_nil (n : Nat) : natToChars n ≠ [] := by
  unfold natToChars
  split
  · simp
  · next h =>
    intro hrev
    have hnil : natRevDigitsAux n n = [] := by
      simpa using congrArg List.reverse hrev
    match n, h with
    | m + 1, h => rw [natRevDigitsAux, if_neg h] at hnil; simp at hnil

theorem natOfDigits_natToChars (n : Nat) : natOfDigits (natToChars n) = n := by
  unfold natToChars
  split
  · next h => subst h; decide
  · exact natOfDigits_revDigitsAux n n (Nat.le_refl n)

theorem takeWhile_digits_all (l : List Char) (h : ∀ c ∈ l, Char.isDigit c = true) :
    l.takeWhile Char.isDigit = l := by
  induction l with
  | nil => rfl
  | cons c cs ihc =>
    rw [List.takeWhile_cons, h c (by simp)]
    simp [ihc (fun x hx => h x (List.mem_cons_of_mem _ hx))]

theorem isDigit_ne_dash {c : Char} (h : c.isDigit = true) : c ≠ '-' := by
  intro he; rw [he] at h; exact absurd h (by decide)

theorem isDigit_ne_plus {c : Char} (h : c.isDigit = true) : c ≠ '+' := by
  intro he; rw [he] at h; exact absurd h (by decide)

theorem stripSign_of_digit {c : Char} (cs : List Char) (h : c.isDigit = true) :
    stripSign (c :: cs) = (false, c :: cs) := by
  have h1 : c ≠ '-' := isDigit_ne_dash h
  have h2 : c ≠ '+' := isDigit_ne_plus h
  unfold stripSign
  split
  · next heq => injection heq with ha hb; exact absurd ha h1
  · next heq => injection heq with ha hb; exact absurd ha h2
  · rfl

theorem toList_jsNumToString (n : Int) :
    (jsNumToString n).toList = intToChars n := rfl

theorem stripSign_intToChars_neg {n : Int} (hn : n < 0) :
    stripSign (intToChars n) = (true, natToChars n.natAbs) := by
  unfold intToChars
  rw [if_pos hn]
  rfl

theorem stripSign_intToChars_nonneg {n : Int} (hn : ¬n < 0) :
    stripSign (intToChars n) = (false, natToChars n.toNat) := by
  unfold intToChars
  rw [if_neg hn]
  obtain ⟨c, cs, hcs⟩ : ∃ c cs, natToChars n.toNat = c :: cs := by
    match h : natToChars n.toNat with
    | [] => exact absurd h (natToChars_ne_nil _)
    | c :: cs => exact ⟨c, cs, rfl⟩
  rw [hcs, stripSign_of_digit cs
    (mem_natToChars_isDigit n.toNat c (hcs ▸ List.mem_cons_self c cs))]

/-- The model `parseFloat` inverts the model number-to-string coercion. -/
theorem parseJsNumber_jsNumToString (n : Int) :
    parseJsNumber (jsNumToString n) = some n := by
  unfold parseJsNumber
  rw [toList_jsNumToString]
  by_cases hn : n < 0
  · rw [stripSign_intToChars_neg hn]
    simp only
    rw [takeWhile_digits_all _ (mem_natToChars_isDigit _),
      if_neg (by simpa [List.isEmpty_iff] using natToChars_ne_nil _),
      natOfDigits_natToChars]
    simp only [if_pos]
    congr 1
    omega
  · rw [stripSign_intToChars_nonneg hn]
    simp only
    rw [takeWhile_digits_all _ (mem_natToChars_isDigit _),
      if_neg (by simpa [List.isEmpty_iff] using natToChars_ne_nil _),
      natOfDigits_natToChars]
    simp only [Bool.false_eq_true, if_false]
    congr 1
    omega

/-- The canonical decimal form of a model number passes the numeric-string
test. -/
theorem isNumericStr_jsNumToString (n : Int) :
    isNumericStr (jsNumToString n) = true := by
  unfold isNumericStr
  rw [toList_jsNumToString]
  by_cases hn : n < 0
  · rw [stripSign_intToChars_neg hn]
    simp only
    rw [Bool.and_eq_true, List.all_eq_true]
    exact ⟨by simpa [List.isEmpty_iff] using natToChars_ne_nil _,
      mem_natToChars_isDigit _⟩
  · rw [stripSign_intToChars_nonneg hn]
    simp only
    rw [Bool.and_eq_true, List.all_eq_true]
    exact ⟨by simpa [List.isEmpty_iff] using natToChars_ne_nil _,
      mem_natToChars_isDigit _⟩

/-! ## The JavaScript value universe and XML nodes -/

/-- Primitive JavaScript values of the model. -/
inductive Prim where
  | str : String → Prim
  | num : Int → Prim
  | bool : Bool → Prim
deriving DecidableEq, Repr

/-- A field value: a primitive or a reference to a heap object (JavaScript
object identity is heap-address equality). -/
inductive FVal where
  | prim : Prim → FVal
  | ref : Nat → FVal
deriving DecidableEq, Repr

/-- A heap object: its constructor (class) name, the id the encoder can look
up for it (`mxCodec.getId`), whether it is an `Array`, its positional array
elements (the integer-indexed properties, kept apart from named fields), and
its named enumerable fields in insertion order. -/
structure HObj where
  cname : String
  oid : Option String
  isArr : Bool
  elems : List FVal
  fields : List (String × FVal)
deriving DecidableEq, Repr

/-- The object heap; addresses are list indices. -/
abbrev Heap := List HObj

/-- An XML element: node name, attributes and element children (text nodes are
not needed by the claims). -/
inductive XNode where
  | elem : String → List (String × String) → List XNode → XNode

/-- Node name of an element. -/
def XNode.name : XNode → String
  | .elem n _ _ => n

/-- Attribute list of an element. -/
def XNode.attrs : XNode → List (String × String)
  | .elem _ a _ => a

/-- Children list of an element. -/
def XNode.children : XNode → List XNode
  | .elem _ _ c => c

/-- DOM `getAttribute` (first matching attribute; `none` models `null`). -/
def XNode.getAttr (n : XNode) (k : String) : Option String :=
  (n.attrs.find? (fun p => p.1 == k)).map (fun p => p.2)

/-- DOM `setAttribute`: overwrite an existing attribute in place or append. -/
def setAttrList (attrs : List (String × String)) (k v : String) :
    List (String × String) :=
  if attrs.any (fun p => p.1 == k) then
    attrs.map (fun p => if p.1 == k then (k, v) else p)
  else attrs ++ [(k, v)]

/-- `setAttribute` on a node. -/
def XNode.setAttr (n : XNode) (k v : String) : XNode :=
  .elem n.name (setAttrList n.attrs k v) n.children

/-- `mxCodec.setAttribute`: sets the attribute only when the value is
non-null.  Modelled from the spec (the `mxCodec` source is not included): a
null value leaves the node unchanged. -/
def codecSetAttribute (n : XNode) (k : String) (v : Option String) : XNode :=
  match v with
  | some s => n.setAttr k s
  | none => n

/-- Appends a child node. -/
def XNode.appendChild (n : XNode) (c : XNode) : XNode :=
  .elem n.name n.attrs (n.children ++ [c])

/-- JS string coercion of a primitive, as used by DOM `setAttribute`. -/
def Prim.toAttrString : Prim → String
  | .str s => s
  | .num n => jsNumToString n
  | .bool b => if b then "true" else "false"

/-- JS string coercion of a field value, used in warning messages (objects
display as "[object Object]"). -/
def FVal.display : FVal → String
  | .prim p => p.toAttrString
  | .ref _ => "[object Object]"

/-- JS truthiness of a primitive. -/
def Prim.truthy : Prim → Bool
  | .str s => !(s == "")
  | .num n => !(n == 0)
  | .bool b => b

/-- JS `ToNumber` on a string ("" coerces to 0, non-numeric strings to NaN,
i.e. `none`). -/
def jsToNumber (s : String) : Option Int :=
  if s == "" then some 0
  else if isNumericStr s then parseJsNumber s else none

/-- JS loose equality `==` restricted to the model's primitives. -/
def jsEqPrim : Prim → Prim → Bool
  | .str a, .str b => a == b
  | .num a, .num b => a == b
  | .bool a, .bool b => a == b
  | .bool a, .num n => ((if a then (1 : Int) else 0) == n)
  | .num n, .bool a => ((if a then (1 : Int) else 0) == n)
  | .num n, .str s => jsToNumber s == some n
  | .str s, .num n => jsToNumber s == some n
  | .bool a, .str s => jsToNumber s == some (if a then 1 else 0)
  | .str s, .bool a => jsToNumber s == some (if a then 1 else 0)

/-! ## The codec configuration -/

/-- Modelled from the spec: `mxObjectIdentity.FIELD_NAME` (source not
included), the object-identity field name skipped by the codec. -/
def FIELD_NAME : String := "mxObjectId"

/-- The per-codec configuration of `mxObjectCodec` (constructor arguments
`exclude`, `idrefs`, `mapping` and the template).  The codec registry is
modelled as a single configuration shared by all classes of a document, with
`getName`/`cloneTemplate` taking the class name from the object or node at
hand; the template's default fields and arrayness are `templateFields` /
`templateIsArr`.  `encodeDefaults` lives on `mxCodec` in the source. -/
structure CodecConfig where
  exclude : List String
  idrefs : List String
  mapping : List (String × String)
  templateFields : List (String × Prim)
  templateIsArr : Bool
  encodeDefaults : Bool
deriving DecidableEq, Repr

/-- `getAttributeName`: maps a fieldname through `mapping`, or returns the
input when unmapped. -/
def getAttributeName (cfg : CodecConfig) (fieldname : String) : String :=
  match cfg.mapping.find? (fun p => p.1 == fieldname) with
  | some p => p.2
  | none => fieldname

/-- `getFieldName`: maps an attribute name through the `reverse` mapping (the
source builds `reverse` by iterating `mapping`, so a duplicated attribute name
keeps the last fieldname), or returns the input when unmapped. -/
def getFieldName (cfg : CodecConfig) (attributename : String) : String :=
  match cfg.mapping.reverse.find? (fun p => p.2 == attributename) with
  | some p => p.1
  | none => attributename

/-- `isExcluded`: the fieldname equals `mxObjectIdentity.FIELD_NAME` or occurs
in `exclude`. -/
def isExcluded (cfg : CodecConfig) (attr : String) : Bool :=
  attr == FIELD_NAME || cfg.exclude.contains attr

/-- `isReference`: the fieldname occurs in `idrefs` (a null fieldname is never
found by `indexOf`). -/
def isReference (cfg : CodecConfig) (attr : Option String) : Bool :=
  match attr with
  | some a => cfg.idrefs.contains a
  | none => false

/-- `isBooleanAttribute`: the value has no `length` property and is loosely
equal to `true` or `false` (so the numbers 0 and 1 also qualify, strings never
do). -/
def isBooleanAttribute : Prim → Bool
  | .bool _ => true
  | .num n => n == 1 || n == 0
  | .str _ => false

/-- `convertAttributeToXml`: canonicalizes boolean-like values to the strings
"1"/"0" (the source tests `value == true`); other values pass through. -/
def convertAttributeToXml (value : Prim) : Prim :=
  if isBooleanAttribute value then
    .str (if jsEqPrim value (.bool true) then "1" else "0")
  else value

/-- `isNumericAttribute`: known numeric attributes of `Geometry` and `Point`
(compared by constructor, here by class name), or any numeric value string. -/
def isNumericAttribute (cname name value : String) : Bool :=
  (cname == "Geometry" &&
    (name == "x" || name == "y" || name == "width" || name == "height")) ||
  (cname == "Point" && (name == "x" || name == "y")) ||
  isNumericStr value

/-- `convertAttributeFromXml`: numeric attributes are run through `parseFloat`
with NaN and non-finite results replaced by 0; everything else stays a
string.  (In the model `parseJsNumber` returns `none` exactly for the NaN
case; the non-finite inputs of JS also parse to `none` here.) -/
def convertAttributeFromXml (cname name value : String) : Prim :=
  if isNumericAttribute cname name value then
    match parseJsNumber value with
    | some n => .num n
    | none => .num 0
  else .str value

/-! ## Encoding (`encode` / `encodeObject` / `encodeValue` / `writeAttribute`)

Warnings (`mxLog.warn`) are modelled as an output list; every function returns
the warnings it produced and callers concatenate them in emission order.
`none` results model only fuel exhaustion of the bounded recursion (the JS
recursion is unbounded on cyclic inline structures), never a JS error. -/

/-- Template default for a field (`this.template[name]`; `none` is JS
`undefined`, in particular for a null name). -/
def templLookup (cfg : CodecConfig) (name : Option String) : Option Prim :=
  match name with
  | some n => (cfg.templateFields.find? (fun p => p.1 == n)).map (fun p => p.2)
  | none => none

/-- The loose `defaultValue != value` test of `encodeValue`.  An `undefined`
default differs from every (non-null) value; an object value loosely equals a
string default only via its "[object Object]" coercion and never equals a
number or boolean default (its coercion is not numeric). -/
def looseNeTemplate (d : Option Prim) (v : FVal) : Bool :=
  match d, v with
  | none, _ => true
  | some p, .prim q => !(jsEqPrim p q)
  | some (.str s), .ref _ => !(s == "[object Object]")
  | some (.num _), .ref _ => true
  | some (.bool _), .ref _ => true

/-- Modelled from the spec: `mxCodec.getId` (source not included) works out
the ID of an object; in the model it is the `oid` recorded on the heap
object, and null for primitives. -/
def getIdOf (heap : Heap) : FVal → Option String
  | .ref a => (heap[a]?).bind (fun o => o.oid)
  | .prim _ => none

/-- The warning issued when a reference field's value has no ID. -/
def encodeNoIdWarning (codecName fieldname valDisp : String) : String :=
  "mxObjectCodec.encode: No ID for " ++ codecName ++ "." ++ fieldname ++ "=" ++ valDisp

/-- `writePrimitiveAttribute`: converts the value, then either appends an
`add` child carrying the value (null name, the array-element case) or sets an
attribute on the node.  Function-valued fields do not exist in the model. -/
def writePrimitiveAttribute (name : Option String) (value : Prim) (node : XNode) :
    XNode :=
  let v := convertAttributeToXml value
  match name with
  | none => node.appendChild (XNode.elem "add" [("value", v.toAttrString)] [])
  | some nm => node.setAttr nm v.toAttrString

/-- `writeComplexAttribute`: encodes the value recursively (`enc.encode`),
tags the child with the fieldname in the `as` attribute and appends it.  In
the model every heap object has a codec, so the null-child warning branch of
the source is unreachable; `none` is fuel exhaustion. -/
def writeComplexAttribute (recur : Nat → Option (XNode × List String))
    (name : Option String) (b : Nat) (node : XNode) : Option (XNode × List String) :=
  match recur b with
  | some (child, ws) =>
    let child' := match name with
      | some nm => child.setAttr "as" nm
      | none => child
    some (node.appendChild child', ws)
  | none => none

/-- The tail of `encodeValue` after the reference substitution: skips the
write when the (possibly substituted) value loosely equals the template
default (unless the name is null or `encodeDefaults` is set), otherwise maps
the name through `mapping` and dispatches on the value's type
(`writeAttribute`). -/
def encodeValueWrite (cfg : CodecConfig) (recur : Nat → Option (XNode × List String))
    (name : Option String) (value : FVal) (node : XNode) :
    Option (XNode × List String) :=
  if name.isNone || cfg.encodeDefaults || looseNeTemplate (templLookup cfg name) value then
    match value with
    | .prim p => some (writePrimitiveAttribute (name.map (getAttributeName cfg)) p node, [])
    | .ref b => writeComplexAttribute recur (name.map (getAttributeName cfg)) b node
  else some (node, [])

/-- `encodeValue`: a reference field's value is replaced by its looked-up id
(warning and skip when there is none); then the value is written via
`encodeValueWrite`.  The caller guarantees a non-null value. -/
def encodeValue (cfg : CodecConfig) (heap : Heap)
    (recur : Nat → Option (XNode × List String)) (cname : String)
    (name : Option String) (value : FVal) (node : XNode) :
    Option (XNode × List String) :=
  if isReference cfg name then
    match getIdOf heap value with
    | none => some (node, [encodeNoIdWarning cname (name.getD "null") value.display])
    | some tmp => encodeValueWrite cfg recur name (.prim (.str tmp)) node
  else encodeValueWrite cfg recur name value node

/-- The `for (const i in obj)` loop body of `encodeObject` over an explicit
field list: null values are impossible in the model, excluded names are
skipped, integer names (array indices) are nulled before `encodeValue`. -/
def encodeFields (cfg : CodecConfig) (heap : Heap)
    (recur : Nat → Option (XNode × List String)) (cname : String) :
    List (String × FVal) → XNode → Option (XNode × List String)
  | [], node => some (node, [])
  | (name, value) :: rest, node =>
    if !(isExcluded cfg name) then
      match encodeValue cfg heap recur cname
          (if isIntegerStr name then none else some name) value node with
      | some (node', ws) =>
        match encodeFields cfg heap recur cname rest node' with
        | some (node'', ws') => some (node'', ws ++ ws')
        | none => none
      | none => none
    else encodeFields cfg heap recur cname rest node

/-- The enumerable properties of an object in JS `for..in` order: integer
indices (stringified, ascending) first, then named fields in insertion
order. -/
def fieldsOfObj (o : HObj) : List (String × FVal) :=
  o.elems.enum.map (fun p => (jsNumToString (p.1 : Int), p.2)) ++ o.fields

/-- `encodeObject`: writes the object's id attribute (via the null-guarded
`enc.setAttribute`) and encodes every enumerable member. -/
def encodeObject (cfg : CodecConfig) (heap : Heap)
    (recur : Nat → Option (XNode × List String)) (o : HObj) (node : XNode) :
    Option (XNode × List String) :=
  encodeFields cfg heap recur o.cname (fieldsOfObj o)
    (codecSetAttribute node "id" o.oid)

/-- `encode`: creates an element named after the object's class (`getName` of
its registered codec) and encodes the object into it; `beforeEncode` and
`afterEncode` are identity hooks.  Recursion is bounded by fuel. -/
def encodeF (cfg : CodecConfig) (heap : Heap) : Nat → Nat → Option (XNode × List String)
  | 0, _ => none
  | fuel + 1, a =>
    match heap[a]? with
    | none => none
    | some o =>
      encodeObject cfg heap (fun b => encodeF cfg heap fuel b) o
        (XNode.elem o.cname [] [])

/-! ## Decoding (`decode` / `decodeNode` / `decodeAttribute` / `decodeChild`)

The decoder threads a state of heap and id cache (`mxCodec.objects`); results
are `DRes`: `ok` with produced warnings, `err` for a thrown JS `Error`, and
`out` for fuel exhaustion (a model artifact only). -/

/-- Decoder state: the heap of decoded objects and the id→object cache
(`mxCodec.objects`). -/
structure DecState where
  heap : Heap
  cache : List (String × Nat)
deriving DecidableEq, Repr

/-- Decode results: `out` models only fuel exhaustion; `err` models a thrown
`Error`. -/
inductive DRes (α : Type) where
  | out : DRes α
  | err : String → DRes α
  | ok : α → DRes α
deriving DecidableEq, Repr

/-- JS assignment `obj[name] = value` on named fields: overwrite in place or
append in insertion order. -/
def setFieldList (fs : List (String × FVal)) (k : String) (v : FVal) :
    List (String × FVal) :=
  if fs.any (fun p => p.1 == k) then
    fs.map (fun p => if p.1 == k then (k, v) else p)
  else fs ++ [(k, v)]

/-- Field assignment on the heap object at address `a`. -/
def setHeapField (st : DecState) (a : Nat) (k : String) (v : FVal) : DecState :=
  { st with heap :=
      match st.heap[a]? with
      | some o => st.heap.set a { o with fields := setFieldList o.fields k v }
      | none => st.heap }

/-- `cloneTemplate`, dispatched on the node name (the registry resolves the
codec for a node by its name; modelled by the shared configuration): a fresh
instance with the template's default fields.  The id under which `decode`
caches the object (`putObject`) is recorded as the object's identity. -/
def cloneTemplate (cfg : CodecConfig) (node : XNode) (idAttr : Option String) : HObj :=
  { cname := node.name
    oid := idAttr
    isArr := cfg.templateIsArr
    elems := []
    fields := cfg.templateFields.map (fun p => (p.1, FVal.prim p.2)) }

mutual
/-- `getElementById` over the model document: first node in document order
carrying the given id attribute. -/
def findById : XNode → String → Option XNode
  | .elem nm ats ch, id =>
    if (XNode.elem nm ats ch).getAttr "id" == some id then some (.elem nm ats ch)
    else findByIdList ch id
def findByIdList : List XNode → String → Option XNode
  | [], _ => none
  | c :: cs, id =>
    match findById c id with
    | some r => some r
    | none => findByIdList cs id
end

/-- Modelled from the spec: `mxCodec.getObject` (source not included) —
resolves an id through the decode-time object cache; per the source file's
reference documentation, an id not yet decoded is looked up in the document
(`getElementById`), decoded, and thereby stored in the lookup table.  `none`
in the result means no object could be resolved. -/
def getObjectHO (doc : XNode)
    (recur : XNode → Option Nat → DecState → DRes ((Nat × DecState) × List String))
    (id : String) (st : DecState) : DRes ((Option Nat × DecState) × List String) :=
  match st.cache.find? (fun p => p.1 == id) with
  | some p => .ok ((some p.2, st), [])
  | none =>
    match findById doc id with
    | none => .ok ((none, st), [])
    | some n =>
      match recur n none st with
      | .ok ((a, st'), ws) => .ok ((some a, st'), ws)
      | .err e => .err e
      | .out => .out

/-- The warning issued when a reference attribute's id resolves to no
object. -/
def decodeNoObjWarning (codecName name valDisp : String) : String :=
  "mxObjectCodec.decode: No object for " ++ codecName ++ "." ++ name ++ "=" ++ valDisp

/-- The class name of the object being decoded at address `a` (`getName` of
its codec). -/
def cnameAt (st : DecState) (a : Nat) : String :=
  match st.heap[a]? with | some o => o.cname | none => ""

/-- `decodeAttribute`: skips `as`/`id` (`isIgnoredAttribute`), converts the
value, maps the attribute name to a fieldname, resolves references through
`getObject` (warning and skip when unresolved) and assigns the value under
the attribute name unless it is excluded. -/
def decodeAttribute (cfg : CodecConfig)
    (getObj : String → DecState → DRes ((Option Nat × DecState) × List String))
    (a : Nat) (attr : String × String) (st : DecState) :
    DRes (DecState × List String) :=
  if attr.1 == "as" || attr.1 == "id" then .ok (st, [])
  else
    if isReference cfg (some (getFieldName cfg attr.1)) then
      match getObj (convertAttributeFromXml (cnameAt st a) attr.1 attr.2).toAttrString st with
      | .ok ((none, st'), ws) =>
        .ok (st', ws ++ [decodeNoObjWarning (cnameAt st a) attr.1
          (convertAttributeFromXml (cnameAt st a) attr.1 attr.2).toAttrString])
      | .ok ((some b, st'), ws) =>
        if !(isExcluded cfg attr.1) then .ok (setHeapField st' a attr.1 (.ref b), ws)
        else .ok (st', ws)
      | .err e => .err e
      | .out => .out
    else
      if !(isExcluded cfg attr.1) then
        .ok (setHeapField st a attr.1
          (.prim (convertAttributeFromXml (cnameAt st a) attr.1 attr.2)), [])
      else .ok (st, [])

/-- `decodeAttributes`: decodes each attribute in order. -/
def decodeAttributes (cfg : CodecConfig)
    (getObj : String → DecState → DRes ((Option Nat × DecState) × List String))
    (a : Nat) : List (String × String) → DecState → DRes (DecState × List String)
  | [], st => .ok (st, [])
  | attr :: rest, st =>
    match decodeAttribute cfg getObj a attr st with
    | .ok (st', ws) =>
      match decodeAttributes cfg getObj a rest st' with
      | .ok (st'', ws') => .ok (st'', ws ++ ws')
      | .err e => .err e
      | .out => .out
    | .err e => .err e
    | .out => .out

/-- `getFieldTemplate`: the current value of the field, with non-empty arrays
replaced by null (they are replaced completely on decode). -/
def getFieldTemplate (st : DecState) (a : Nat) (fieldname : Option String) :
    Option FVal :=
  let t : Option FVal :=
    match fieldname, st.heap[a]? with
    | some f, some o => (o.fields.find? (fun p => p.1 == f)).map (fun p => p.2)
    | _, _ => none
  match t with
  | some (FVal.ref b) =>
    match st.heap[b]? with
    | some o => if o.isArr && !o.elems.isEmpty then none else t
    | none => t
  | _ => t

/-- `addObjectValue`: stores a non-null value that differs (strictly) from
the template either under the fieldname or, for an empty/null fieldname, by
`obj.push` — which throws on a non-array object. -/
def addObjectValue (o : HObj) (fieldname : Option String) (value template : Option FVal) :
    Except String HObj :=
  match value with
  | none => .ok o
  | some v =>
    if some v == template then .ok o
    else
      match fieldname with
      | some f =>
        if f.length > 0 then .ok { o with fields := setFieldList o.fields f v }
        else if o.isArr then .ok { o with elems := o.elems ++ [v] }
        else .error "obj.push is not a function"
      | none =>
        if o.isArr then .ok { o with elems := o.elems ++ [v] }
        else .error "obj.push is not a function"

/-- The `try { addObjectValue } catch` tail of `decodeChild`: a failure while
storing the value is rethrown with the child's node name appended as
context. -/
def decodeChildStore (child : XNode) (a : Nat) (fieldname : Option String)
    (value template : Option FVal) (st : DecState) : DRes (DecState × List String) :=
  match st.heap[a]? with
  | none => .ok (st, [])
  | some o =>
    match addObjectValue o fieldname value template with
    | .ok o' => .ok ({ st with heap := st.heap.set a o' }, [])
    | .error e => .err (e ++ " for " ++ child.name)

/-- `decodeChild`: computes the fieldname from the `as` attribute, skips
excluded fieldnames, computes the value — for an `add` node the `value`
attribute (expression evaluation is off: `allowEval` defaults to false), else
a recursive decode into the field's template — and stores it.  A truthy
primitive template is returned unchanged by `dec.decode` (assignments on a
JS primitive are silently dropped), so the value then equals the template. -/
def decodeChild (cfg : CodecConfig)
    (recur : XNode → Option Nat → DecState → DRes ((Nat × DecState) × List String))
    (child : XNode) (a : Nat) (st : DecState) : DRes (DecState × List String) :=
  let fieldname := (child.getAttr "as").map (getFieldName cfg)
  if fieldname == none || !(isExcluded cfg (fieldname.getD "")) then
    let template := getFieldTemplate st a fieldname
    if child.name == "add" then
      let value := (child.getAttr "value").map (fun v => FVal.prim (.str v))
      decodeChildStore child a fieldname value template st
    else
      match template with
      | some (FVal.prim p) =>
        if p.truthy then
          decodeChildStore child a fieldname (some (FVal.prim p)) template st
        else
          match recur child none st with
          | .ok ((b, st'), ws) =>
            match decodeChildStore child a fieldname (some (FVal.ref b)) template st' with
            | .ok (st'', ws') => .ok (st'', ws ++ ws')
            | .err e => .err e
            | .out => .out
          | .err e => .err e
          | .out => .out
      | some (FVal.ref t) =>
        match recur child (some t) st with
        | .ok ((b, st'), ws) =>
          match decodeChildStore child a fieldname (some (FVal.ref b)) template st' with
          | .ok (st'', ws') => .ok (st'', ws ++ ws')
          | .err e => .err e
          | .out => .out
        | .err e => .err e
        | .out => .out
      | none =>
        match recur child none st with
        | .ok ((b, st'), ws) =>
          match decodeChildStore child a fieldname (some (FVal.ref b)) template st' with
          | .ok (st'', ws') => .ok (st'', ws ++ ws')
          | .err e => .err e
          | .out => .out
        | .err e => .err e
        | .out => .out
  else .ok (st, [])

/-- `processInclude`: an `include` directive is consumed (its external
document load, unavailable in the model, has its errors ignored by the
source). -/
def processInclude (n : XNode) : Bool := n.name == "include"

/-- `decodeChildren`: decodes each element child that is not an include
directive. -/
def decodeChildren (cfg : CodecConfig)
    (recur : XNode → Option Nat → DecState → DRes ((Nat × DecState) × List String))
    (a : Nat) : List XNode → DecState → DRes (DecState × List String)
  | [], st => .ok (st, [])
  | c :: rest, st =>
    if processInclude c then decodeChildren cfg recur a rest st
    else
      match decodeChild cfg recur c a st with
      | .ok (st', ws) =>
        match decodeChildren cfg recur a rest st' with
        | .ok (st'', ws') => .ok (st'', ws ++ ws')
        | .err e => .err e
        | .out => .out
      | .err e => .err e
      | .out => .out

/-- The object-selection step of `decode`: the cache is consulted for the
node's id; otherwise the `into` object or a fresh template clone is used and
registered under the id (`putObject`). -/
def decodeAlloc (cfg : CodecConfig) (node : XNode) (into : Option Nat)
    (st : DecState) : Nat × DecState :=
  match (node.getAttr "id").bind
      (fun i => (st.cache.find? (fun p => p.1 == i)).map (fun p => p.2)) with
  | some a => (a, st)
  | none =>
    match node.getAttr "id", into with
    | some i, some a => (a, { st with cache := st.cache ++ [(i, a)] })
    | some i, none =>
      (st.heap.length,
        { heap := st.heap ++ [cloneTemplate cfg node (some i)],
          cache := st.cache ++ [(i, st.heap.length)] })
    | none, some a => (a, st)
    | none, none =>
      (st.heap.length, { st with heap := st.heap ++ [cloneTemplate cfg node none] })

/-- `decode`: selects or creates the target object, then decodes attributes
and children into it (`decodeNode`; `beforeDecode`/`afterDecode` are identity
hooks).  Fuel bounds the recursion through children and reference lookups. -/
def decodeF (cfg : CodecConfig) (doc : XNode) :
    Nat → XNode → Option Nat → DecState → DRes ((Nat × DecState) × List String)
  | 0, _, _, _ => .out
  | fuel + 1, node, into, st =>
    let p := decodeAlloc cfg node into st
    match decodeAttributes cfg
        (fun id st' => getObjectHO doc (fun n i s => decodeF cfg doc fuel n i s) id st')
        p.1 node.attrs p.2 with
    | .ok (st2, ws) =>
      match decodeChildren cfg (fun n i s => decodeF cfg doc fuel n i s) p.1
          node.children st2 with
      | .ok (st3, ws') => .ok ((p.1, st3), ws ++ ws')
      | .err e => .err e
      | .out => .out
    | .err e => .err e
    | .out => .out

/-! ## EdgeHandler (`src/packages/core/src/view/cell/edge/EdgeHandler.ts`)

The drag state of the handler and the model-commit structure of `mouseUp` are
embedded; rendering (shapes, markers, highlights) is outside the model. -/

/-- A 2D point (coordinates as model numbers). -/
structure GPoint where
  x : Int
  y : Int
deriving DecidableEq, Repr

/-- An edge geometry as far as the handler's commits touch it: the list of
control points (JS `geometry.points`, null when absent). -/
structure EGeometry where
  points : Option (List GPoint)
deriving DecidableEq, Repr

/-- `removePoint` (EdgeHandler.ts:2085): for an interior handle index — with
`abspoints.length` absolute points — clones the geometry, splices out the
control point at `index - 1` and commits it with `setGeometry`; otherwise
nothing happens.  The result is the geometry passed to `setGeometry`, `none`
when `setGeometry` is not called (the model is left unchanged). -/
def removePoint (abspointsLen : Nat) (geo : Option EGeometry) (index : Int) :
    Option EGeometry :=
  if 0 < index ∧ index < (abspointsLen : Int) - 1 then
    match geo with
    | some g =>
      match g.points with
      | some ps => some { g with points := some (ps.eraseIdx (index.toNat - 1)) }
      | none => none
    | none => none
  else none

/-- The drag-state fields of `EdgeHandler` reset by `reset`
(EdgeHandler.ts:1780). -/
structure EHState where
  index : Option Int
  error : Option String
  label : Option GPoint
  points : Option (List GPoint)
  snapPoint : Option GPoint
  isLabel : Bool
  isSource : Bool
  isTarget : Bool
  active : Bool
deriving DecidableEq, Repr

/-- `reset`: clears the drag state (the shape/marker/constraint-handler and
hint resets are presentation-layer and outside the model). -/
def EHState.reset (_s : EHState) : EHState :=
  { index := none
    error := none
    label := none
    points := none
    snapPoint := none
    isLabel := false
    isSource := false
    isTarget := false
    active := false }

/-- The escape listener installed in `init` (EdgeHandler.ts:156): calls
`reset` (and redraws when a drag was in progress, which does not touch the
state). -/
def escapeHandler (s : EHState) : EHState := s.reset

/-! ### The transactional structure of `mouseUp`

Model-changing operations are traced: `begin`/`endU` are
`model.beginUpdate()`/`model.endUpdate()` and `mut` is a primitive model
mutation.  External collaborator calls that may both mutate the model and
throw (a custom handle's `execute`, `graph.connectCell`) are parameters
`ExtOp`: the trace they emitted before returning or throwing, and whether
they threw. -/

/-- Model-transaction events. -/
inductive MEv where
  | begin : MEv
  | endU : MEv
  | mutate : String → MEv
deriving DecidableEq, Repr

/-- An external operation: the model events it emits and whether it throws. -/
structure ExtOp where
  trace : List MEv
  throws : Bool
deriving DecidableEq, Repr

/-- Modelled from the spec: a primitive `mxGraphModel` mutator
(`model.setGeometry`, `model.add`, `model.setTerminal`; source not included)
executes its change inside the model's own transactional bracket. -/
def modelOp (s : String) : List MEv := [.begin, .mutate s, .endU]

/-- `begin; try body finally end` — the finally clause always emits `endU`,
and an exception of the body propagates. -/
def bracket (body : List MEv × Bool) : List MEv × Bool :=
  (.begin :: body.1 ++ [.endU], body.2)

/-- Sequencing with JS exception semantics: the second part runs only when
the first did not throw. -/
def seqT (x y : List MEv × Bool) : List MEv × Bool :=
  if x.2 then x else (x.1 ++ y.1, y.2)

/-- `moveLabel` (EdgeHandler.ts:1878): commits the recomputed label geometry
with a single `model.setGeometry`. -/
def moveLabelTrace : List MEv × Bool := (modelOp "setGeometry", false)

/-- `connect` (EdgeHandler.ts:1938): `beginUpdate; try { graph.connectCell }
finally endUpdate`. -/
def connectTrace (connectCell : ExtOp) : List MEv × Bool :=
  bracket (connectCell.trace, connectCell.throws)

/-- `changeTerminalPoint` (EdgeHandler.ts:1969): `beginUpdate; try { clone?:
model.add + model.setTerminal; setGeometry + graph.connectCell } finally
endUpdate`. -/
def changeTerminalPointTrace (clone : Bool) (connectCell : ExtOp) :
    List MEv × Bool :=
  bracket (seqT
    (if clone then (modelOp "add" ++ modelOp "setTerminal", false) else ([], false))
    (seqT (modelOp "setGeometry", false) (connectCell.trace, connectCell.throws)))

/-- `changePoints` (EdgeHandler.ts:2002): `beginUpdate; try { clone?:
model.add + two model.setTerminal; model.setGeometry } finally endUpdate`. -/
def changePointsTrace (clone : Bool) : List MEv × Bool :=
  bracket
    (if clone then
      (modelOp "add" ++ modelOp "setTerminal" ++ modelOp "setTerminal" ++
        modelOp "setGeometry", false)
    else (modelOp "setGeometry", false))

/-- The commit branch taken by `mouseUp` after the mouse moved (the chain of
conditions at EdgeHandler.ts:1652-1754). -/
inductive UpCase where
  | showError : UpCase
  | custom : ExtOp → UpCase
  | labelMove : UpCase
  | reconnect : Bool → ExtOp → ExtOp → UpCase
  | dangling : Bool → ExtOp → UpCase
  | movePoints : Bool → UpCase
  | revalidate : UpCase
deriving DecidableEq, Repr

/-- The model events emitted by the commit phase of `mouseUp`
(EdgeHandler.ts:1652-1754) and whether an exception escapes it:

* `showError`: a validation error is displayed, nothing committed;
* `custom h`: `beginUpdate; try { customHandles[...].execute(me) } finally
  endUpdate`;
* `labelMove`: `moveLabel`;
* `reconnect clone cloneConnect connectCell`: `beginUpdate; try { clone?:
  model.add + model.setGeometry + graph.connectCell(clone); connect(...) —
  itself bracketed } finally endUpdate`;
* `dangling clone connectCell`: `changeTerminalPoint`;
* `movePoints clone`: `changePoints`;
* `revalidate`: view invalidate/validate only. -/
def mouseUpCommit : UpCase → List MEv × Bool
  | .showError => ([], false)
  | .custom h => bracket (h.trace, h.throws)
  | .labelMove => moveLabelTrace
  | .reconnect clone cloneConnect connectCell =>
    bracket (seqT
      (if clone then
        seqT (modelOp "add" ++ modelOp "setGeometry", false)
          (cloneConnect.trace, cloneConnect.throws)
      else ([], false))
      (connectTrace connectCell))
  | .dangling clone connectCell => changeTerminalPointTrace clone connectCell
  | .movePoints clone => changePointsTrace clone
  | .revalidate => ([], false)

/-- `mouseUp` (EdgeHandler.ts:1631): nothing at all happens unless a drag is
in progress (`this.index != null`). -/
def mouseUpModel (index : Option Int) (c : UpCase) : List MEv × Bool :=
  match index with
  | none => ([], false)
  | some _ => mouseUpCommit c

/-- Depth scan of a transaction trace: `none` when an `endU` has no matching
`begin` or a mutation happens outside any bracket; otherwise the final open
depth. -/
def scanDepth : List MEv → Nat → Option Nat
  | [], d => some d
  | .begin :: r, d => scanDepth r (d + 1)
  | .endU :: r, d => if d > 0 then scanDepth r (d - 1) else none
  | .mutate _ :: r, d => if d > 0 then scanDepth r d else none

/-- A trace is well-bracketed when it closes every bracket it opens, never
closes an unopened one, and every mutation happens inside an open bracket. -/
def wellBracketed (t : List MEv) : Prop := scanDepth t 0 = some 0

/-- An external operation is transaction-safe when the trace it emits is
itself well-bracketed (its own mutations go through the model's bracketed
mutators, so this holds for the collaborators of the source). -/
def ExtOp.safe (h : ExtOp) : Prop := wellBracketed h.trace

/-! ## Claims -/

/-- **C7.** `removePoint` modifies the edge only for interior handle indices:
for every index not strictly between 0 and `abspoints.length - 1` (in
particular 0 and the last index) it leaves the geometry and the model
unchanged (no `setGeometry` call); for an interior index it commits a
geometry whose control points are the old ones with exactly the point at
position `index - 1` removed. -/
theorem c7_removePoint_interior_only (len : Nat) (geo : Option EGeometry) (index : Int) :
    (¬(0 < index ∧ index < (len : Int) - 1) → removePoint len geo index = none) ∧
    (∀ g ps, 0 < index → index < (len : Int) - 1 → geo = some g → g.points = some ps →
      removePoint len geo index =
        some { g with points := some (ps.eraseIdx (index.toNat - 1)) }) := by
  constructor
  · intro h
    unfold removePoint
    rw [if_neg h]
  · intro g ps h1 h2 hg hp
    subst hg
    unfold removePoint
    rw [if_pos ⟨h1, h2⟩]
    simp [hp]

/-- Witness for C7: with 4 absolute points, index 0 and the last index 3 do
nothing, and interior index 2 removes the control point at position 1. -/
theorem c7_removePoint_interior_only_witness :
    removePoint 4 (some ⟨some [⟨1, 1⟩, ⟨2, 2⟩]⟩) 0 = none ∧
    removePoint 4 (some ⟨some [⟨1, 1⟩, ⟨2, 2⟩]⟩) 3 = none ∧
    removePoint 4 (some ⟨some [⟨1, 1⟩, ⟨2, 2⟩]⟩) 2 = some ⟨some [⟨1, 1⟩]⟩ :=
  ⟨(c7_removePoint_interior_only 4 (some ⟨some [⟨1, 1⟩, ⟨2, 2⟩]⟩) 0).1 (by decide),
   (c7_removePoint_interior_only 4 (some ⟨some [⟨1, 1⟩, ⟨2, 2⟩]⟩) 3).1 (by decide),
   (c7_removePoint_interior_only 4 (some ⟨some [⟨1, 1⟩, ⟨2, 2⟩]⟩) 2).2
     ⟨some [⟨1, 1⟩, ⟨2, 2⟩]⟩ [⟨1, 1⟩, ⟨2, 2⟩] (by decide) (by decide) rfl rfl⟩

/-- **C9.** The escape keystroke cancels an in-progress drag: after the edge
handler's escape listener runs, index, error, label, points and snapPoint are
null and isLabel, isSource, isTarget and active are false; with the index
null, `mouseUp` commits nothing to the model. -/
theorem c9_escape_resets_drag_state (s : EHState) :
    (escapeHandler s).index = none ∧ (escapeHandler s).error = none ∧
    (escapeHandler s).label = none ∧ (escapeHandler s).points = none ∧
    (escapeHandler s).snapPoint = none ∧ (escapeHandler s).isLabel = false ∧
    (escapeHandler s).isSource = false ∧ (escapeHandler s).isTarget = false ∧
    (escapeHandler s).active = false ∧
    (∀ c : UpCase, mouseUpModel (escapeHandler s).index c = ([], false)) :=
  ⟨rfl, rfl, rfl, rfl, rfl, rfl, rfl, rfl, rfl, fun _ => rfl⟩

/-- **C10.** For every XML attribute the codec judges numeric (Geometry's
x/y/width/height, Point's x/y, or any numeric value string), decode converts
the attribute string with `parseFloat`, and a NaN (or non-finite) result
yields the number 0 rather than an error or the original string. -/
theorem c10_numeric_attribute_parsefloat (cname name value : String)
    (h : (cname = "Geometry" ∧ (name = "x" ∨ name = "y" ∨ name = "width" ∨ name = "height")) ∨
      (cname = "Point" ∧ (name = "x" ∨ name = "y")) ∨ isNumericStr value = true) :
    convertAttributeFromXml cname name value = .num ((parseJsNumber value).getD 0) ∧
    (parseJsNumber value = none → convertAttributeFromXml cname name value = .num 0) := by
  have hn : isNumericAttribute cname name value = true := by
    unfold isNumericAttribute
    rcases h with ⟨h1, h2⟩ | ⟨h1, h2⟩ | h1
    · subst h1
      rcases h2 with h | h | h | h <;> subst h <;> simp
    · subst h1
      rcases h2 with h | h <;> subst h <;> simp
    · simp [h1]
  constructor
  · unfold convertAttributeFromXml
    rw [if_pos hn]
    cases hp : parseJsNumber value <;> simp [hp]
  · intro hp
    unfold convertAttributeFromXml
    rw [if_pos hn, hp]

/-- Witness for C10: the non-numeric string "abc" on a Geometry `x`
attribute parses to NaN and decodes to the number 0. -/
theorem c10_numeric_attribute_parsefloat_witness :
    ((("Geometry" : String) = "Geometry" ∧ (("x" : String) = "x" ∨ ("x" : String) = "y" ∨
      ("x" : String) = "width" ∨ ("x" : String) = "height")) ∨
      (("Geometry" : String) = "Point" ∧ (("x" : String) = "x" ∨ ("x" : String) = "y")) ∨
      isNumericStr "abc" = true) ∧
    convertAttributeFromXml "Geometry" "x" "abc" = .num ((parseJsNumber "abc").getD 0) ∧
    (parseJsNumber "abc" = none → convertAttributeFromXml "Geometry" "x" "abc" = .num 0) :=
  ⟨Or.inl ⟨rfl, Or.inl rfl⟩,
   c10_numeric_attribute_parsefloat "Geometry" "x" "abc" (Or.inl ⟨rfl, Or.inl rfl⟩)⟩

theorem scanDepth_append (a b : List MEv) (d : Nat) :
    scanDepth (a ++ b) d = (scanDepth a d).bind (fun e => scanDepth b e) := by
  induction a generalizing d with
  | nil => rfl
  | cons ev r ih =>
    cases ev with
    | begin => rw [List.cons_append, scanDepth, scanDepth, ih]
    | endU =>
      rw [List.cons_append, scanDepth, scanDepth]
      by_cases hd : d > 0
      · rw [if_pos hd, if_pos hd, ih]
      · rw [if_neg hd, if_neg hd]; rfl
    | mutate s =>
      rw [List.cons_append, scanDepth, scanDepth]
      by_cases hd : d > 0
      · rw [if_pos hd, if_pos hd, ih]
      · rw [if_neg hd, if_neg hd]; rfl

theorem scanDepth_succ (t : List MEv) :
    ∀ d e, scanDepth t d = some e → scanDepth t (d + 1) = some (e + 1) := by
  induction t with
  | nil =>
    intro d e h
    rw [scanDepth] at h ⊢
    rw [Option.some_inj] at h ⊢
    omega
  | cons ev r ih =>
    intro d e h
    cases ev with
    | begin => rw [scanDepth] at h ⊢; exact ih (d + 1) e h
    | endU =>
      rw [scanDepth] at h ⊢
      split at h
      · next hd =>
        rw [if_pos (by omega), show d + 1 - 1 = (d - 1) + 1 by omega]
        exact ih _ _ h
      · exact absurd h (by simp)
    | mutate s =>
      rw [scanDepth] at h ⊢
      split at h
      · rw [if_pos (by omega)]
        exact ih _ _ h
      · exact absurd h (by simp)

/-- The external operations a `mouseUp` branch runs are transaction-safe. -/
def UpCase.safeOps : UpCase → Prop
  | .custom h => h.safe
  | .reconnect _ h1 h2 => h1.safe ∧ h2.safe
  | .dangling _ h => h.safe
  | _ => True

theorem wellBracketed_append {a b : List MEv} (ha : wellBracketed a)
    (hb : wellBracketed b) : wellBracketed (a ++ b) := by
  unfold wellBracketed at ha hb ⊢
  rw [scanDepth_append, ha]
  exact hb

theorem wellBracketed_bracket (body : List MEv × Bool) (h : wellBracketed body.1) :
    wellBracketed (bracket body).1 := by
  show scanDepth (MEv.begin :: (body.1 ++ [MEv.endU])) 0 = some 0
  rw [scanDepth, scanDepth_append, scanDepth_succ body.1 0 0 h]
  rfl

theorem wellBracketed_seqT (x y : List MEv × Bool) (hx : wellBracketed x.1)
    (hy : wellBracketed y.1) : wellBracketed (seqT x y).1 := by
  unfold seqT
  split
  · exact hx
  · exact wellBracketed_append hx hy

theorem wellBracketed_modelOp (s : String) : wellBracketed (modelOp s) := rfl

/-- **C6.** Every model mutation committed by the edge handler's mouse-up
(custom-handle execution, label move, reconnection via `connect`,
terminal-point change and control-point change) happens inside a model
beginUpdate/endUpdate bracket, and endUpdate is executed even when the
enclosed commit throws: for every drag index, every commit branch and every
throw outcome of the enclosed external operations (which emit well-bracketed
traces of their own), the event trace of `mouseUp` is well-bracketed — every
`mut` occurs at positive depth and all opened brackets are closed. -/
theorem c6_mouseUp_transactional (index : Option Int) (c : UpCase)
    (hsafe : c.safeOps) : wellBracketed (mouseUpModel index c).1 := by
  cases index with
  | none => exact rfl
  | some i =>
    show wellBracketed (mouseUpCommit c).1
    cases c with
    | showError => exact rfl
    | custom h => exact wellBracketed_bracket (h.trace, h.throws) hsafe
    | labelMove => exact wellBracketed_modelOp "setGeometry"
    | reconnect clone h1 h2 =>
      obtain ⟨hs1, hs2⟩ := hsafe
      apply wellBracketed_bracket
      apply wellBracketed_seqT
      · cases clone with
        | true =>
          exact wellBracketed_seqT (modelOp "add" ++ modelOp "setGeometry", false)
            (h1.trace, h1.throws)
            (wellBracketed_append (wellBracketed_modelOp "add")
              (wellBracketed_modelOp "setGeometry")) hs1
        | false => exact rfl
      · exact wellBracketed_bracket (h2.trace, h2.throws) hs2
    | dangling clone h =>
      apply wellBracketed_bracket
      apply wellBracketed_seqT
      · cases clone with
        | true =>
          exact wellBracketed_append (wellBracketed_modelOp "add")
            (wellBracketed_modelOp "setTerminal")
        | false => exact rfl
      · exact wellBracketed_seqT _ _ (wellBracketed_modelOp "setGeometry") hsafe
    | movePoints clone =>
      apply wellBracketed_bracket
      cases clone with
      | true => exact rfl
      | false => exact wellBracketed_modelOp "setGeometry"
    | revalidate => exact rfl

/-- Witness for C6: a reconnection drag whose `graph.connectCell` emits a
complete bracketed mutation and then throws still yields a well-bracketed
trace (the handler's `finally` closes its bracket). -/
theorem c6_mouseUp_transactional_witness :
    (UpCase.reconnect true ⟨modelOp "connectCell", false⟩
      ⟨modelOp "connectCell", true⟩).safeOps ∧
    wellBracketed (mouseUpModel (some 1)
      (UpCase.reconnect true ⟨modelOp "connectCell", false⟩
        ⟨modelOp "connectCell", true⟩)).1 :=
  ⟨⟨rfl, rfl⟩,
   c6_mouseUp_transactional (some 1)
     (UpCase.reconnect true ⟨modelOp "connectCell", false⟩
       ⟨modelOp "connectCell", true⟩) ⟨rfl, rfl⟩⟩

/-- **C8.** A failure raised while storing a decoded value is wrapped and
rethrown as a new error whose message is the original message extended with
the child node's name as context — and for the malformed `add` child node
case (a value-carrying `add` child with no `as` attribute decoded into a
non-array object, where `obj.push` fails) the error propagates out of
`decodeChild` rather than being swallowed. -/
theorem c8_decodeChild_wraps_store_errors :
    (∀ (child : XNode) (a : Nat) (fieldname : Option String)
      (value template : Option FVal) (st : DecState) (o : HObj) (m : String),
      st.heap[a]? = some o →
      addObjectValue o fieldname value template = .error m →
      decodeChildStore child a fieldname value template st =
        .err (m ++ " for " ++ child.name)) ∧
    (∀ (cfg : CodecConfig)
      (recur : XNode → Option Nat → DecState → DRes ((Nat × DecState) × List String))
      (v : String) (a : Nat) (st : DecState) (o : HObj),
      st.heap[a]? = some o → o.isArr = false →
      decodeChild cfg recur (XNode.elem "add" [("value", v)] []) a st =
        .err ("obj.push is not a function" ++ " for " ++ "add")) := by
  constructor
  · intro child a fieldname value template st o m hheap herr
    unfold decodeChildStore
    rw [hheap]
    simp only [herr]
  · intro cfg recur v a st o hheap harr
    unfold decodeChild decodeChildStore getFieldTemplate addObjectValue
    simp [XNode.getAttr, XNode.attrs, XNode.name, hheap, harr]

/-- Witness for C8: an `add` child with a value but no `as` attribute,
decoded into a plain (non-array) object, raises the wrapped push error. -/
theorem c8_decodeChild_wraps_store_errors_witness :
    decodeChildStore (XNode.elem "add" [("value", "x")] []) 0 none
      (some (FVal.prim (Prim.str "x"))) none
      ⟨[⟨"Object", none, false, [], []⟩], []⟩ =
      .err ("obj.push is not a function" ++ " for " ++ "add") ∧
    decodeChild ⟨[], [], [], [], false, false⟩ (fun _ _ _ => .out)
      (XNode.elem "add" [("value", "x")] []) 0
      ⟨[⟨"Object", none, false, [], []⟩], []⟩ =
      .err ("obj.push is not a function" ++ " for " ++ "add") :=
  ⟨c8_decodeChild_wraps_store_errors.1 (XNode.elem "add" [("value", "x")] []) 0 none
      (some (FVal.prim (Prim.str "x"))) none
      ⟨[⟨"Object", none, false, [], []⟩], []⟩ ⟨"Object", none, false, [], []⟩
      "obj.push is not a function" rfl rfl,
   c8_decodeChild_wraps_store_errors.2 ⟨[], [], [], [], false, false⟩
      (fun _ _ _ => .out) "x" 0 ⟨[⟨"Object", none, false, [], []⟩], []⟩
      ⟨"Object", none, false, [], []⟩ rfl rfl⟩

theorem name_setAttr (n : XNode) (k v : String) : (n.setAttr k v).name = n.name := rfl

theorem attrs_setAttr (n : XNode) (k v : String) :
    (n.setAttr k v).attrs = setAttrList n.attrs k v := rfl

theorem children_setAttr (n : XNode) (k v : String) :
    (n.setAttr k v).children = n.children := rfl

theorem name_appendChild (n c : XNode) : (n.appendChild c).name = n.name := rfl

theorem name_codecSetAttribute (n : XNode) (k : String) (v : Option String) :
    (codecSetAttribute n k v).name = n.name := by
  cases v <;> rfl

theorem writePrimitiveAttribute_name (name : Option String) (p : Prim) (node : XNode) :
    (writePrimitiveAttribute name p node).name = node.name := by
  unfold writePrimitiveAttribute
  cases name <;> rfl

theorem encodeValueWrite_name (cfg : CodecConfig)
    (recur : Nat → Option (XNode × List String)) (name : Option String)
    (value : FVal) (node n' : XNode) (ws : List String)
    (h : encodeValueWrite cfg recur name value node = some (n', ws)) :
    n'.name = node.name := by
  cases value with
  | prim p =>
    simp only [encodeValueWrite] at h
    split at h
    · simp only [Option.some_inj, Prod.mk.injEq] at h
      rw [← h.1]
      exact writePrimitiveAttribute_name _ _ _
    · simp only [Option.some_inj, Prod.mk.injEq] at h
      rw [← h.1]
  | ref b =>
    simp only [encodeValueWrite, writeComplexAttribute] at h
    split at h
    · cases hr : recur b with
      | none => rw [hr] at h; exact Option.noConfusion h
      | some pr =>
        obtain ⟨child, cws⟩ := pr
        simp only [hr, Option.some_inj, Prod.mk.injEq] at h
        rw [← h.1]
        exact name_appendChild _ _
    · simp only [Option.some_inj, Prod.mk.injEq] at h
      rw [← h.1]

theorem encodeValue_name (cfg : CodecConfig) (heap : Heap)
    (recur : Nat → Option (XNode × List String)) (cname : String)
    (name : Option String) (value : FVal) (node n' : XNode) (ws : List String)
    (h : encodeValue cfg heap recur cname name value node = some (n', ws)) :
    n'.name = node.name := by
  unfold encodeValue at h
  split at h
  · cases hg : getIdOf heap value with
    | none =>
      simp only [hg, Option.some_inj, Prod.mk.injEq] at h
      rw [← h.1]
    | some tmp =>
      simp only [hg] at h
      exact encodeValueWrite_name _ _ _ _ _ _ _ h
  · exact encodeValueWrite_name _ _ _ _ _ _ _ h

theorem encodeFields_name (cfg : CodecConfig) (heap : Heap)
    (recur : Nat → Option (XNode × List String)) (cname : String) :
    ∀ (fs : List (String × FVal)) (node n' : XNode) (ws : List String),
    encodeFields cfg heap recur cname fs node = some (n', ws) → n'.name = node.name := by
  intro fs
  induction fs with
  | nil =>
    intro node n' ws h
    unfold encodeFields at h
    simp only [Option.some_inj, Prod.mk.injEq] at h
    rw [← h.1]
  | cons p rest ih =>
    intro node n' ws h
    obtain ⟨nm, v⟩ := p
    unfold encodeFields at h
    split at h
    · cases hev : encodeValue cfg heap recur cname
          (if isIntegerStr nm then none else some nm) v node with
      | none => rw [hev] at h; exact Option.noConfusion h
      | some pr =>
        obtain ⟨n1, w1⟩ := pr
        simp only [hev] at h
        cases hrest : encodeFields cfg heap recur cname rest n1 with
        | none => rw [hrest] at h; exact Option.noConfusion h
        | some pr2 =>
          obtain ⟨n2, w2⟩ := pr2
          simp only [hrest, Option.some_inj, Prod.mk.injEq] at h
          rw [← h.1]
          exact (ih _ _ _ hrest).trans (encodeValue_name _ _ _ _ _ _ _ _ _ hev)
    · exact ih _ _ _ h

/-- **C4 (amended).** `encode` creates an element named after the object's
type; and for a field that is not excluded, provided the value (after
reference substitution) loosely differs from the codec template's default for
that field — or `encodeDefaults` is set — a fieldname in `idrefs` is replaced
by the looked-up id and written as an attribute, an object-valued field
becomes a child node tagged with the fieldname in its `as` attribute, and a
primitive-valued field becomes an attribute (booleans encoded as "1"/"0").
A field whose value loosely equals the template default is omitted. -/
theorem c4_encode_field_dispatch (cfg : CodecConfig) (heap : Heap)
    (recur : Nat → Option (XNode × List String)) (cname : String) :
    (∀ (fuel a : Nat) (n : XNode) (ws : List String) (o : HObj),
      encodeF cfg heap fuel a = some (n, ws) → heap[a]? = some o →
      n.name = o.cname) ∧
    (∀ (f i : String) (v : FVal) (node : XNode),
      isReference cfg (some f) = true → getIdOf heap v = some i →
      (cfg.encodeDefaults ||
        looseNeTemplate (templLookup cfg (some f)) (.prim (.str i))) = true →
      encodeValue cfg heap recur cname (some f) v node =
        some (node.setAttr (getAttributeName cfg f) i, [])) ∧
    (∀ (f : String) (p : Prim) (node : XNode),
      isReference cfg (some f) = false →
      (cfg.encodeDefaults ||
        looseNeTemplate (templLookup cfg (some f)) (.prim p)) = true →
      encodeValue cfg heap recur cname (some f) (.prim p) node =
        some (node.setAttr (getAttributeName cfg f)
          (convertAttributeToXml p).toAttrString, [])) ∧
    (∀ b : Bool, (convertAttributeToXml (.bool b)).toAttrString =
      if b then "1" else "0") ∧
    (∀ (f : String) (b : Nat) (node child : XNode) (ws : List String),
      isReference cfg (some f) = false →
      (cfg.encodeDefaults ||
        looseNeTemplate (templLookup cfg (some f)) (.ref b)) = true →
      recur b = some (child, ws) →
      encodeValue cfg heap recur cname (some f) (.ref b) node =
        some (node.appendChild (child.setAttr "as" (getAttributeName cfg f)), ws)) ∧
    (∀ (f : String) (v : FVal) (node : XNode),
      isReference cfg (some f) = false → cfg.encodeDefaults = false →
      looseNeTemplate (templLookup cfg (some f)) v = false →
      encodeValue cfg heap recur cname (some f) v node = some (node, [])) := by
  refine ⟨?_, ?_, ?_, ?_, ?_, ?_⟩
  · intro fuel a n ws o h hheap
    match fuel with
    | 0 => exact absurd h (by simp [encodeF])
    | fuel + 1 =>
      unfold encodeF at h
      rw [hheap] at h
      have := encodeFields_name cfg heap _ o.cname _ _ _ _ h
      rw [this, name_codecSetAttribute]
      rfl
  · intro f i v node href hid hdiff
    unfold encodeValue encodeValueWrite
    simp [href, hid, hdiff, writePrimitiveAttribute, convertAttributeToXml,
      isBooleanAttribute, Prim.toAttrString]
  · intro f p node href hdiff
    unfold encodeValue encodeValueWrite
    simp [href, hdiff, writePrimitiveAttribute]
  · intro b
    cases b <;> rfl
  · intro f b node child ws href hdiff hrec
    unfold encodeValue encodeValueWrite writeComplexAttribute
    simp [href, hdiff, hrec]
  · intro f v node href hdef hne
    unfold encodeValue encodeValueWrite
    simp [href, hdef, hne]

/-- Counterexample for C4 as stated: a primitive field whose value equals the
codec template's default is omitted from the output — encoding
`{foo: "X"}` with a template defaulting `foo` to `"X"` yields an element with
no attribute and no child at all. -/
theorem c4_counterexample_default_value_skipped :
    encodeF ⟨[], [], [], [("foo", .str "X")], false, false⟩
      [⟨"Object", none, false, [], [("foo", .prim (.str "X"))]⟩] 1 0 =
      some (XNode.elem "Object" [] [], []) := rfl

/-- Witness for C4: on a codec with `idrefs = ["r"]`, a mapping `w ↦ width`
and an empty template, the reference field is written as its id, a string
field as an attribute under the mapped name, a boolean as "1", and a nested
object as an `as`-tagged child. -/
theorem c4_encode_field_dispatch_witness :
    encodeValue ⟨[], ["r"], [("w", "width")], [], false, false⟩
      [⟨"B", some "idB", false, [], []⟩] (fun _ => none) "A"
      (some "r") (.ref 0) (XNode.elem "A" [] []) =
      some ((XNode.elem "A" [] []).setAttr (getAttributeName
        ⟨[], ["r"], [("w", "width")], [], false, false⟩ "r") "idB", []) ∧
    encodeValue ⟨[], ["r"], [("w", "width")], [], false, false⟩
      [⟨"B", some "idB", false, [], []⟩] (fun _ => none) "A"
      (some "w") (.prim (.bool true)) (XNode.elem "A" [] []) =
      some ((XNode.elem "A" [] []).setAttr (getAttributeName
        ⟨[], ["r"], [("w", "width")], [], false, false⟩ "w")
        (convertAttributeToXml (.bool true)).toAttrString, []) ∧
    (convertAttributeToXml (.bool true)).toAttrString = "1" ∧
    encodeValue ⟨[], ["r"], [("w", "width")], [], false, false⟩
      [⟨"B", some "idB", false, [], []⟩]
      (fun _ => some (XNode.elem "B" [] [], [])) "A"
      (some "child") (.ref 0) (XNode.elem "A" [] []) =
      some ((XNode.elem "A" [] []).appendChild
        ((XNode.elem "B" [] []).setAttr "as" (getAttributeName
          ⟨[], ["r"], [("w", "width")], [], false, false⟩ "child")), []) :=
  ⟨(c4_encode_field_dispatch ⟨[], ["r"], [("w", "width")], [], false, false⟩
      [⟨"B", some "idB", false, [], []⟩] (fun _ => none) "A").2.1
      "r" "idB" (.ref 0) (XNode.elem "A" [] []) rfl rfl rfl,
   (c4_encode_field_dispatch ⟨[], ["r"], [("w", "width")], [], false, false⟩
      [⟨"B", some "idB", false, [], []⟩] (fun _ => none) "A").2.2.1
      "w" (.bool true) (XNode.elem "A" [] []) rfl rfl,
   (c4_encode_field_dispatch ⟨[], ["r"], [("w", "width")], [], false, false⟩
      [⟨"B", some "idB", false, [], []⟩] (fun _ => none) "A").2.2.2.1 true,
   (c4_encode_field_dispatch ⟨[], ["r"], [("w", "width")], [], false, false⟩
      [⟨"B", some "idB", false, [], []⟩]
      (fun _ => some (XNode.elem "B" [] [], [])) "A").2.2.2.2.1
      "child" 0 (XNode.elem "A" [] []) (XNode.elem "B" [] []) [] rfl rfl rfl⟩

theorem encodeFields_append (cfg : CodecConfig) (heap : Heap)
    (recur : Nat → Option (XNode × List String)) (cname : String)
    (xs ys : List (String × FVal)) (node : XNode) :
    encodeFields cfg heap recur cname (xs ++ ys) node =
      match encodeFields cfg heap recur cname xs node with
      | some (n1, w1) =>
        match encodeFields cfg heap recur cname ys n1 with
        | some (n2, w2) => some (n2, w1 ++ w2)
        | none => none
      | none => none := by
  induction xs generalizing node with
  | nil =>
    simp only [List.nil_append, encodeFields]
    cases encodeFields cfg heap recur cname ys node with
    | none => rfl
    | some pr => obtain ⟨n2, w2⟩ := pr; simp
  | cons p rest ih =>
    obtain ⟨nm, v⟩ := p
    rw [List.cons_append]
    simp only [encodeFields]
    split
    · cases hev : encodeValue cfg heap recur cname
          (if isIntegerStr nm then none else some nm) v node with
      | none => rfl
      | some pr =>
        obtain ⟨n1, w1⟩ := pr
        simp only [ih n1]
        cases h2 : encodeFields cfg heap recur cname rest n1 with
        | none => rfl
        | some pr2 =>
          obtain ⟨n2, w2⟩ := pr2
          simp only
          cases h3 : encodeFields cfg heap recur cname ys n2 with
          | none => rfl
          | some pr3 =>
            obtain ⟨n3, w3⟩ := pr3
            simp [List.append_assoc]
    · exact ih node

theorem decodeAttributes_append (cfg : CodecConfig)
    (getObj : String → DecState → DRes ((Option Nat × DecState) × List String))
    (a : Nat) (xs ys : List (String × String)) (st : DecState) :
    decodeAttributes cfg getObj a (xs ++ ys) st =
      match decodeAttributes cfg getObj a xs st with
      | .ok (st1, w1) =>
        match decodeAttributes cfg getObj a ys st1 with
        | .ok (st2, w2) => .ok (st2, w1 ++ w2)
        | .err e => .err e
        | .out => .out
      | .err e => .err e
      | .out => .out := by
  induction xs generalizing st with
  | nil =>
    simp only [List.nil_append, decodeAttributes]
    cases decodeAttributes cfg getObj a ys st with
    | ok pr => obtain ⟨st2, w2⟩ := pr; simp
    | err e => rfl
    | out => rfl
  | cons attr rest ih =>
    rw [List.cons_append]
    simp only [decodeAttributes]
    cases h1 : decodeAttribute cfg getObj a attr st with
    | ok pr =>
      obtain ⟨st', w⟩ := pr
      simp only [ih st']
      cases h2 : decodeAttributes cfg getObj a rest st' with
      | ok pr2 =>
        obtain ⟨st2, w2⟩ := pr2
        simp only
        cases h3 : decodeAttributes cfg getObj a ys st2 with
        | ok pr3 => obtain ⟨st3, w3⟩ := pr3; simp [List.append_assoc]
        | err e => rfl
        | out => rfl
      | err e => rfl
      | out => rfl
    | err e => rfl
    | out => rfl

/-- **C5.** Unresolved references are non-fatal and skip only the affected
field.  During encode, a reference field whose value has no id produces a
warning and is omitted from the output node, while all earlier and later
fields are encoded exactly as they would be without it.  During decode, a
reference attribute whose id resolves to no object (neither cached nor
present in the document) produces a warning and no assignment, while all
other attributes are decoded exactly as without it.  In both directions no
error is raised. -/
theorem c5_unresolved_references_skip_field (cfg : CodecConfig) (heap : Heap)
    (recur : Nat → Option (XNode × List String)) (cname : String) :
    (∀ (f : String) (v : FVal) (node : XNode),
      isReference cfg (some f) = true → getIdOf heap v = none →
      encodeValue cfg heap recur cname (some f) v node =
        some (node, [encodeNoIdWarning cname f v.display])) ∧
    (∀ (f : String) (v : FVal) (pre post : List (String × FVal)) (node : XNode)
      (n2 : XNode) (w : List String),
      isReference cfg (some f) = true → getIdOf heap v = none →
      isExcluded cfg f = false → isIntegerStr f = false →
      encodeFields cfg heap recur cname (pre ++ post) node = some (n2, w) →
      ∃ w1 w2, w = w1 ++ w2 ∧
        encodeFields cfg heap recur cname (pre ++ (f, v) :: post) node =
          some (n2, w1 ++ encodeNoIdWarning cname f v.display :: w2)) ∧
    (∀ (doc : XNode)
      (recurD : XNode → Option Nat → DecState → DRes ((Nat × DecState) × List String))
      (a : Nat) (attr : String × String) (st : DecState),
      (attr.1 == "as") = false → (attr.1 == "id") = false →
      isReference cfg (some (getFieldName cfg attr.1)) = true →
      st.cache.find? (fun p =>
        p.1 == (convertAttributeFromXml (cnameAt st a) attr.1 attr.2).toAttrString) = none →
      findById doc (convertAttributeFromXml (cnameAt st a) attr.1 attr.2).toAttrString = none →
      decodeAttribute cfg (getObjectHO doc recurD) a attr st =
        .ok (st, [decodeNoObjWarning (cnameAt st a) attr.1
          (convertAttributeFromXml (cnameAt st a) attr.1 attr.2).toAttrString])) ∧
    (∀ (doc : XNode)
      (recurD : XNode → Option Nat → DecState → DRes ((Nat × DecState) × List String))
      (a : Nat) (attr : String × String) (pre post : List (String × String))
      (st st1 st2 : DecState) (w1 w2 : List String),
      (attr.1 == "as") = false → (attr.1 == "id") = false →
      isReference cfg (some (getFieldName cfg attr.1)) = true →
      st1.cache.find? (fun p =>
        p.1 == (convertAttributeFromXml (cnameAt st1 a) attr.1 attr.2).toAttrString) = none →
      findById doc (convertAttributeFromXml (cnameAt st1 a) attr.1 attr.2).toAttrString = none →
      decodeAttributes cfg (getObjectHO doc recurD) a pre st = .ok (st1, w1) →
      decodeAttributes cfg (getObjectHO doc recurD) a post st1 = .ok (st2, w2) →
      decodeAttributes cfg (getObjectHO doc recurD) a (pre ++ attr :: post) st =
        .ok (st2, w1 ++ decodeNoObjWarning (cnameAt st1 a) attr.1
          (convertAttributeFromXml (cnameAt st1 a) attr.1 attr.2).toAttrString :: w2) ∧
      decodeAttributes cfg (getObjectHO doc recurD) a (pre ++ post) st =
        .ok (st2, w1 ++ w2)) := by
  have he1 : ∀ (f : String) (v : FVal) (node : XNode),
      isReference cfg (some f) = true → getIdOf heap v = none →
      encodeValue cfg heap recur cname (some f) v node =
        some (node, [encodeNoIdWarning cname f v.display]) := by
    intro f v node href hid
    unfold encodeValue
    rw [if_pos href, hid]
    rfl
  have hd1 : ∀ (doc : XNode)
      (recurD : XNode → Option Nat → DecState → DRes ((Nat × DecState) × List String))
      (a : Nat) (attr : String × String) (st : DecState),
      (attr.1 == "as") = false → (attr.1 == "id") = false →
      isReference cfg (some (getFieldName cfg attr.1)) = true →
      st.cache.find? (fun p =>
        p.1 == (convertAttributeFromXml (cnameAt st a) attr.1 attr.2).toAttrString) = none →
      findById doc (convertAttributeFromXml (cnameAt st a) attr.1 attr.2).toAttrString = none →
      decodeAttribute cfg (getObjectHO doc recurD) a attr st =
        .ok (st, [decodeNoObjWarning (cnameAt st a) attr.1
          (convertAttributeFromXml (cnameAt st a) attr.1 attr.2).toAttrString]) := by
    intro doc recurD a attr st h1 h2 href hcache hfind
    unfold decodeAttribute
    rw [if_neg (by simp [h1, h2])]
    rw [if_pos href]
    unfold getObjectHO
    rw [hcache, hfind]
    simp
  refine ⟨he1, ?_, hd1, ?_⟩
  · intro f v pre post node n2 w href hid hex hint hrun
    rw [encodeFields_append] at hrun
    cases hpre : encodeFields cfg heap recur cname pre node with
    | none => rw [hpre] at hrun; exact Option.noConfusion hrun
    | some pr1 =>
      obtain ⟨n1, w1⟩ := pr1
      rw [hpre] at hrun
      simp only at hrun
      cases hpost : encodeFields cfg heap recur cname post n1 with
      | none => rw [hpost] at hrun; exact Option.noConfusion hrun
      | some pr2 =>
        obtain ⟨n2', w2⟩ := pr2
        rw [hpost] at hrun
        simp only [Option.some_inj, Prod.mk.injEq] at hrun
        obtain ⟨hn, hw⟩ := hrun
        refine ⟨w1, w2, hw.symm, ?_⟩
        rw [encodeFields_append, hpre]
        simp only
        have hstep : encodeFields cfg heap recur cname ((f, v) :: post) n1 =
            some (n2', [encodeNoIdWarning cname f v.display] ++ w2) := by
          simp only [encodeFields]
          rw [if_pos (by rw [hex]; rfl), if_neg (by rw [hint]; exact Bool.false_ne_true),
            he1 f v n1 href hid]
          simp only [hpost]
        rw [hstep, hn]
        rfl
  · intro doc recurD a attr pre post st st1 st2 w1 w2 h1 h2 href hcache hfind hpre hpost
    have hbad := hd1 doc recurD a attr st1 h1 h2 href hcache hfind
    constructor
    · rw [decodeAttributes_append, hpre]
      simp only
      have hstep : decodeAttributes cfg (getObjectHO doc recurD) a (attr :: post) st1 =
          .ok (st2, [decodeNoObjWarning (cnameAt st1 a) attr.1
            (convertAttributeFromXml (cnameAt st1 a) attr.1 attr.2).toAttrString] ++ w2) := by
        simp only [decodeAttributes]
        rw [hbad]
        simp only [hpost]
      rw [hstep]
      rfl
    · rw [decodeAttributes_append, hpre]
      simp only
      rw [hpost]

/-- Witness for C5: a codec with `idrefs = ["r"]`; the object `{p:"1", r:B,
q:"2"}` where B has no id encodes to `{p,q}` attributes plus a warning, and
the attribute list `p="1", r="missing", q="2"` with an unresolvable id
decodes to the same state as without `r`, plus a warning, with no error. -/
theorem c5_unresolved_references_skip_field_witness :
    encodeValue ⟨[], ["r"], [], [], false, false⟩ [⟨"B", none, false, [], []⟩]
      (fun _ => none) "A" (some "r") (.ref 0) (XNode.elem "A" [] []) =
      some (XNode.elem "A" [] [], [encodeNoIdWarning "A" "r" (FVal.ref 0).display]) ∧
    decodeAttribute ⟨[], ["r"], [], [], false, false⟩
      (getObjectHO (XNode.elem "root" [] []) (fun _ _ _ => .out)) 0 ("r", "missing")
      ⟨[⟨"A", none, false, [], []⟩], []⟩ =
      .ok (⟨[⟨"A", none, false, [], []⟩], []⟩,
        [decodeNoObjWarning "A" "r" "missing"]) ∧
    (decodeAttributes ⟨[], ["r"], [], [], false, false⟩
      (getObjectHO (XNode.elem "root" [] []) (fun _ _ _ => .out)) 0
      ([("p", "1")] ++ ("r", "missing") :: [("q", "2")])
      ⟨[⟨"A", none, false, [], []⟩], []⟩ =
      .ok (⟨[⟨"A", none, false, [],
          [("p", .prim (.num 1)), ("q", .prim (.num 2))]⟩], []⟩,
        [] ++ decodeNoObjWarning "A" "r" "missing" :: []) ∧
    decodeAttributes ⟨[], ["r"], [], [], false, false⟩
      (getObjectHO (XNode.elem "root" [] []) (fun _ _ _ => .out)) 0
      ([("p", "1")] ++ [("q", "2")])
      ⟨[⟨"A", none, false, [], []⟩], []⟩ =
      .ok (⟨[⟨"A", none, false, [],
          [("p", .prim (.num 1)), ("q", .prim (.num 2))]⟩], []⟩, [] ++ [])) :=
  ⟨(c5_unresolved_references_skip_field ⟨[], ["r"], [], [], false, false⟩
      [⟨"B", none, false, [], []⟩] (fun _ => none) "A").1 "r" (.ref 0)
      (XNode.elem "A" [] []) rfl rfl,
   (c5_unresolved_references_skip_field ⟨[], ["r"], [], [], false, false⟩
      [⟨"B", none, false, [], []⟩] (fun _ => none) "A").2.2.1
      (XNode.elem "root" [] []) (fun _ _ _ => .out) 0 ("r", "missing")
      ⟨[⟨"A", none, false, [], []⟩], []⟩ rfl rfl rfl rfl rfl,
   (c5_unresolved_references_skip_field ⟨[], ["r"], [], [], false, false⟩
      [⟨"B", none, false, [], []⟩] (fun _ => none) "A").2.2.2
      (XNode.elem "root" [] []) (fun _ _ _ => .out) 0 ("r", "missing")
      [("p", "1")] [("q", "2")]
      ⟨[⟨"A", none, false, [], []⟩], []⟩
      ⟨[⟨"A", none, false, [], [("p", .prim (.num 1))]⟩], []⟩
      ⟨[⟨"A", none, false, [],
        [("p", .prim (.num 1)), ("q", .prim (.num 2))]⟩], []⟩
      [] [] rfl rfl rfl rfl rfl rfl rfl⟩

/-! ## Round-trip of flat primitive objects (C1) -/

/-- The value a primitive field comes back as after encode/decode: numbers
survive, strings survive unless they look numeric (then they come back as the
number they parse to), and booleans come back as the numbers 1/0 (encode
canonicalizes them to "1"/"0" and the decoder's numeric conversion turns
those strings into numbers, not booleans). -/
def decodedPrim : Prim → Prim
  | .str s => if isNumericStr s then .num ((parseJsNumber s).getD 0) else .str s
  | .num n => .num n
  | .bool b => .num (if b then 1 else 0)

theorem beq_false_of_ne {a b : String} (h : a ≠ b) : (a == b) = false := by
  simp [h]

/-- On a class without special numeric attributes, the decoder's conversion
is driven by the numeric-string test alone. -/
theorem convertFromXml_other (cname name s : String)
    (hG : cname ≠ "Geometry") (hP : cname ≠ "Point") :
    convertAttributeFromXml cname name s =
      if isNumericStr s then
        match parseJsNumber s with
        | some n => .num n
        | none => .num 0
      else .str s := by
  have hGb : (cname == "Geometry") = false := beq_false_of_ne hG
  have hPb : (cname == "Point") = false := beq_false_of_ne hP
  unfold convertAttributeFromXml isNumericAttribute
  rw [hGb, hPb]
  simp only [Bool.false_and, Bool.false_or]

theorem convertFromXml_convertToXml (cname name : String)
    (hG : cname ≠ "Geometry") (hP : cname ≠ "Point") (q : Prim) :
    convertAttributeFromXml cname name ((convertAttributeToXml q).toAttrString) =
      decodedPrim q := by
  rw [convertFromXml_other cname name _ hG hP]
  cases q with
  | str s =>
    rw [show (convertAttributeToXml (Prim.str s)).toAttrString = s from rfl]
    simp only [decodedPrim]
    by_cases hn : isNumericStr s = true
    · rw [if_pos hn, if_pos hn]
      cases hp : parseJsNumber s <;> simp [hp]
    · rw [if_neg hn, if_neg hn]
  | num n =>
    by_cases h1 : n = 1
    · subst h1; decide
    · by_cases h0 : n = 0
      · subst h0; decide
      · have hcv : convertAttributeToXml (.num n) = .num n := by
          unfold convertAttributeToXml
          rw [if_neg (by
            unfold isBooleanAttribute
            simp [h0, h1])]
        rw [hcv, show (Prim.num n).toAttrString = jsNumToString n from rfl]
        rw [if_pos (isNumericStr_jsNumToString n), parseJsNumber_jsNumToString]
        rfl
  | bool b => cases b <;> decide

theorem templLookup_nil (cfg : CodecConfig) (h : cfg.templateFields = [])
    (name : Option String) : templLookup cfg name = none := by
  unfold templLookup
  cases name with
  | none => rfl
  | some n => rw [h]; rfl

theorem getAttributeName_nil (cfg : CodecConfig) (h : cfg.mapping = [])
    (f : String) : getAttributeName cfg f = f := by
  unfold getAttributeName
  rw [h]
  rfl

theorem getFieldName_nil (cfg : CodecConfig) (h : cfg.mapping = [])
    (f : String) : getFieldName cfg f = f := by
  unfold getFieldName
  rw [h]
  rfl

theorem setAttrList_fresh (attrs : List (String × String)) (k v : String)
    (h : attrs.any (fun p => p.1 == k) = false) :
    setAttrList attrs k v = attrs ++ [(k, v)] := by
  unfold setAttrList
  rw [h]
  rfl

theorem setFieldList_fresh (fs : List (String × FVal)) (k : String) (v : FVal)
    (h : fs.any (fun p => p.1 == k) = false) :
    setFieldList fs k v = fs ++ [(k, v)] := by
  unfold setFieldList
  rw [h]
  rfl

/-- The id attribute written by `encodeObject` for an object with the given
id. -/
def idAttrsOf : Option String → List (String × String)
  | some i => [("id", i)]
  | none => []

/-- The cache entry registered by `decode` for a node with the given id
decoded into address 0 of an empty state. -/
def cacheOf : Option String → List (String × Nat)
  | some i => [(i, 0)]
  | none => []

theorem codecSetAttribute_id (cn : String) (oid : Option String) :
    codecSetAttribute (XNode.elem cn [] []) "id" oid =
      XNode.elem cn (idAttrsOf oid) [] := by
  cases oid <;> rfl

theorem idAttrsOf_fresh (oid : Option String) (f : String) (h : f ≠ "id") :
    (idAttrsOf oid).any (fun q => q.1 == f) = false := by
  cases oid with
  | none => rfl
  | some i =>
    show (("id" == f) || false) = false
    rw [beq_false_of_ne (Ne.symm h)]
    rfl

theorem fieldsOfObj_elems_nil (o : HObj) (h : o.elems = []) :
    fieldsOfObj o = o.fields := by
  unfold fieldsOfObj
  rw [h]
  rfl

theorem encodeFields_flat (cfg : CodecConfig) (heap : Heap)
    (recur : Nat → Option (XNode × List String)) (cname : String)
    (hmap : cfg.mapping = []) (htf : cfg.templateFields = []) :
    ∀ (pfs : List (String × Prim)) (node : XNode),
    (∀ p ∈ pfs, isExcluded cfg p.1 = false ∧ isIntegerStr p.1 = false ∧
      isReference cfg (some p.1) = false ∧
      node.attrs.any (fun q => q.1 == p.1) = false) →
    (pfs.map Prod.fst).Nodup →
    encodeFields cfg heap recur cname (pfs.map (fun p => (p.1, FVal.prim p.2))) node =
      some (XNode.elem node.name
        (node.attrs ++ pfs.map (fun p => (p.1, (convertAttributeToXml p.2).toAttrString)))
        node.children, []) := by
  intro pfs
  induction pfs with
  | nil =>
    intro node hconds hnodup
    simp only [List.map_nil, encodeFields]
    cases node
    simp [XNode.name, XNode.attrs, XNode.children]
  | cons p rest ih =>
    intro node hconds hnodup
    obtain ⟨f, q⟩ := p
    obtain ⟨hex, hint, href, hfresh⟩ := hconds (f, q) (by simp)
    simp only [List.map_cons, encodeFields]
    rw [if_pos (by rw [hex]; rfl)]
    rw [show (if isIntegerStr f then none else some f : Option String) = some f by
      rw [hint]; rfl]
    have hev : encodeValue cfg heap recur cname (some f) (FVal.prim q) node =
        some (node.setAttr f (convertAttributeToXml q).toAttrString, []) := by
      unfold encodeValue encodeValueWrite writePrimitiveAttribute
      simp [href, templLookup_nil cfg htf, getAttributeName_nil cfg hmap,
        looseNeTemplate]
    simp only [hev]
    have hfreshrest : ∀ p ∈ rest,
        (node.setAttr f (convertAttributeToXml q).toAttrString).attrs.any
          (fun r => r.1 == p.1) = false := by
      intro p hp
      have hne : (f == p.1) = false := by
        apply beq_false_of_ne
        intro heq
        have : f ∈ rest.map Prod.fst := heq ▸ List.mem_map_of_mem Prod.fst hp
        exact (List.nodup_cons.mp hnodup).1 this
      show (setAttrList node.attrs f _).any (fun r => r.1 == p.1) = false
      rw [setAttrList_fresh node.attrs f _ hfresh, List.any_append]
      rw [(hconds p (List.mem_cons_of_mem _ hp)).2.2.2]
      show (false || ((f == p.1) || false)) = false
      rw [hne]
      rfl
    have ihres := ih (node.setAttr f (convertAttributeToXml q).toAttrString)
      (fun p hp => ⟨(hconds p (List.mem_cons_of_mem _ hp)).1,
        (hconds p (List.mem_cons_of_mem _ hp)).2.1,
        (hconds p (List.mem_cons_of_mem _ hp)).2.2.1, hfreshrest p hp⟩)
      (List.nodup_cons.mp hnodup).2
    simp only [ihres]
    simp [name_setAttr, attrs_setAttr, children_setAttr,
      setAttrList_fresh node.attrs f _ hfresh, List.append_assoc]

/-- `encode` of a flat primitive object under a plain configuration: the
element is named after the class and carries the id attribute (when the
object has an id) followed by one attribute per field. -/
theorem encodeF_flat (cfg : CodecConfig) (o : HObj) (pfs : List (String × Prim))
    (hmap : cfg.mapping = []) (htf : cfg.templateFields = [])
    (hoel : o.elems = [])
    (hofields : o.fields = pfs.map (fun p => (p.1, FVal.prim p.2)))
    (hconds : ∀ p ∈ pfs, isExcluded cfg p.1 = false ∧ isIntegerStr p.1 = false ∧
      isReference cfg (some p.1) = false ∧ p.1 ≠ "id")
    (hnodup : (pfs.map Prod.fst).Nodup) :
    encodeF cfg [o] 1 0 =
      some (XNode.elem o.cname
        (idAttrsOf o.oid ++ pfs.map (fun p => (p.1, (convertAttributeToXml p.2).toAttrString)))
        [], []) := by
  show encodeObject cfg [o] _ o (XNode.elem o.cname [] []) = _
  unfold encodeObject
  rw [fieldsOfObj_elems_nil o hoel, hofields, codecSetAttribute_id o.cname o.oid]
  rw [encodeFields_flat cfg [o] _ o.cname hmap htf pfs
    (XNode.elem o.cname (idAttrsOf o.oid) [])
    (fun p hp => ⟨(hconds p hp).1, (hconds p hp).2.1, (hconds p hp).2.2.1,
      idAttrsOf_fresh o.oid p.1 (hconds p hp).2.2.2⟩) hnodup]
  rfl

theorem find?_ne_keys {α : Type} (l : List (String × α)) (k : String)
    (h : ∀ p ∈ l, (p.1 == k) = false) :
    l.find? (fun p => p.1 == k) = none := by
  induction l with
  | nil => rfl
  | cons p rest ih =>
    rw [List.find?_cons, h p (by simp)]
    exact ih (fun r hr => h r (List.mem_cons_of_mem _ hr))

theorem getAttr_encoded_id (cn : String) (oid : Option String)
    (mapped : List (String × String)) (ch : List XNode)
    (h : ∀ p ∈ mapped, (p.1 == "id") = false) :
    (XNode.elem cn (idAttrsOf oid ++ mapped) ch).getAttr "id" = oid := by
  cases oid with
  | none =>
    show ((mapped.find? (fun p => p.1 == "id")).map (fun p => p.2)) = none
    rw [find?_ne_keys mapped "id" h]
    rfl
  | some i => rfl

/-- Skipping the id attribute: `decodeAttribute` ignores it, so a leading id
attribute contributes nothing. -/
theorem decodeAttributes_id_skip (cfg : CodecConfig)
    (getObj : String → DecState → DRes ((Option Nat × DecState) × List String))
    (a : Nat) (oid : Option String) (rest : List (String × String)) (st : DecState) :
    decodeAttributes cfg getObj a (idAttrsOf oid ++ rest) st =
      decodeAttributes cfg getObj a rest st := by
  cases oid with
  | none => rfl
  | some i =>
    show decodeAttributes cfg getObj a (("id", i) :: rest) st = _
    simp only [decodeAttributes]
    rw [show decodeAttribute cfg getObj a ("id", i) st = .ok (st, []) by
      unfold decodeAttribute
      rw [if_pos (by simp)]]
    cases h : decodeAttributes cfg getObj a rest st with
    | ok pr => obtain ⟨st2, w2⟩ := pr; simp [h]
    | err e => simp [h]
    | out => simp [h]

theorem cnameAt_single (cn : String) (oid : Option String) (isA : Bool)
    (el : List FVal) (fs : List (String × FVal)) (cache : List (String × Nat)) :
    cnameAt ⟨[⟨cn, oid, isA, el, fs⟩], cache⟩ 0 = cn := rfl

/-- `decodeAttributes` over the attribute list produced by encoding a flat
primitive object: each attribute is decoded and assigned in order, fields
accumulate by appending, values go through the decoder's numeric
conversion. -/
theorem decodeAttributes_flat (cfg : CodecConfig) (hmap : cfg.mapping = [])
    (getObj : String → DecState → DRes ((Option Nat × DecState) × List String))
    (cn : String) (hG : cn ≠ "Geometry") (hP : cn ≠ "Point") :
    ∀ (pfs : List (String × Prim)) (oid : Option String) (isA : Bool)
      (acc : List (String × FVal)) (cache : List (String × Nat)),
    (∀ p ∈ pfs, p.1 ≠ "as" ∧ p.1 ≠ "id" ∧ isReference cfg (some p.1) = false ∧
      isExcluded cfg p.1 = false ∧ acc.any (fun q => q.1 == p.1) = false) →
    (pfs.map Prod.fst).Nodup →
    decodeAttributes cfg getObj 0
      (pfs.map (fun p => (p.1, (convertAttributeToXml p.2).toAttrString)))
      ⟨[⟨cn, oid, isA, [], acc⟩], cache⟩ =
      .ok (⟨[⟨cn, oid, isA, [],
        acc ++ pfs.map (fun p => (p.1, FVal.prim (decodedPrim p.2)))⟩], cache⟩, []) := by
  intro pfs
  induction pfs with
  | nil =>
    intro oid isA acc cache hconds hnodup
    simp only [List.map_nil, decodeAttributes, List.append_nil]
  | cons p rest ih =>
    intro oid isA acc cache hconds hnodup
    obtain ⟨f, q⟩ := p
    obtain ⟨has, hid, href, hex, hfresh⟩ := hconds (f, q) (by simp)
    simp only [List.map_cons, decodeAttributes]
    have hstep : decodeAttribute cfg getObj 0
        (f, (convertAttributeToXml q).toAttrString) ⟨[⟨cn, oid, isA, [], acc⟩], cache⟩ =
        .ok (⟨[⟨cn, oid, isA, [], acc ++ [(f, FVal.prim (decodedPrim q))]⟩], cache⟩, []) := by
      unfold decodeAttribute
      rw [if_neg (by simp [beq_false_of_ne has, beq_false_of_ne hid])]
      simp only [cnameAt_single]
      rw [convertFromXml_convertToXml cn f hG hP q, getFieldName_nil cfg hmap]
      rw [if_neg (by rw [href]; exact Bool.false_ne_true)]
      rw [if_pos (by rw [hex]; rfl)]
      unfold setHeapField
      simp only
      rw [show (([⟨cn, oid, isA, [], acc⟩] : Heap)[0]?) = some ⟨cn, oid, isA, [], acc⟩
        from rfl]
      simp only [List.set]
      rw [setFieldList_fresh acc f _ hfresh]
    simp only [hstep]
    have hfreshrest : ∀ p ∈ rest,
        (acc ++ [(f, FVal.prim (decodedPrim q))]).any (fun r => r.1 == p.1) = false := by
      intro p hp
      have hne : (f == p.1) = false := by
        apply beq_false_of_ne
        intro heq
        have : f ∈ rest.map Prod.fst := heq ▸ List.mem_map_of_mem Prod.fst hp
        exact (List.nodup_cons.mp hnodup).1 this
      rw [List.any_append]
      rw [(hconds p (List.mem_cons_of_mem _ hp)).2.2.2.2]
      show (false || ((f == p.1) || false)) = false
      rw [hne]
      rfl
    have ihres := ih oid isA (acc ++ [(f, FVal.prim (decodedPrim q))]) cache
      (fun p hp => ⟨(hconds p (List.mem_cons_of_mem _ hp)).1,
        (hconds p (List.mem_cons_of_mem _ hp)).2.1,
        (hconds p (List.mem_cons_of_mem _ hp)).2.2.1,
        (hconds p (List.mem_cons_of_mem _ hp)).2.2.2.1, hfreshrest p hp⟩)
      (List.nodup_cons.mp hnodup).2
    simp only [ihres]
    simp [List.append_assoc]

theorem decodeAlloc_fresh (cfg : CodecConfig) (htf : cfg.templateFields = [])
    (cn : String) (oid : Option String) (attrs : List (String × String))
    (ch : List XNode)
    (hget : (XNode.elem cn attrs ch).getAttr "id" = oid) :
    decodeAlloc cfg (XNode.elem cn attrs ch) none ⟨[], []⟩ =
      (0, ⟨[⟨cn, oid, cfg.templateIsArr, [], []⟩], cacheOf oid⟩) := by
  unfold decodeAlloc
  rw [hget]
  have hclone : cloneTemplate cfg (XNode.elem cn attrs ch) oid =
      ⟨cn, oid, cfg.templateIsArr, [], []⟩ := by
    unfold cloneTemplate
    rw [htf]
    rfl
  cases oid with
  | none => simp [hclone, cacheOf]
  | some i => simp [hclone, cacheOf]

/-- `decode` of the node produced by encoding a flat primitive object: a
fresh template clone is created (and cached under the id when present), each
attribute is assigned through the numeric conversion, and no warnings or
errors arise. -/
theorem decodeF_flat (cfg : CodecConfig) (hmap : cfg.mapping = [])
    (htf : cfg.templateFields = []) (cn : String) (hG : cn ≠ "Geometry")
    (hP : cn ≠ "Point") (oid : Option String) (pfs : List (String × Prim))
    (hconds : ∀ p ∈ pfs, p.1 ≠ "as" ∧ p.1 ≠ "id" ∧
      isReference cfg (some p.1) = false ∧ isExcluded cfg p.1 = false)
    (hnodup : (pfs.map Prod.fst).Nodup) (fuel : Nat) (doc : XNode) :
    decodeF cfg doc (fuel + 1)
      (XNode.elem cn (idAttrsOf oid ++
        pfs.map (fun p => (p.1, (convertAttributeToXml p.2).toAttrString))) [])
      none ⟨[], []⟩ =
      .ok ((0, ⟨[⟨cn, oid, cfg.templateIsArr, [],
        pfs.map (fun p => (p.1, FVal.prim (decodedPrim p.2)))⟩], cacheOf oid⟩), []) := by
  have hkeys : ∀ r ∈ pfs.map (fun p => (p.1, (convertAttributeToXml p.2).toAttrString)),
      (r.1 == "id") = false := by
    intro r hr
    obtain ⟨p, hp, hrw⟩ := List.mem_map.mp hr
    rw [← hrw]
    exact beq_false_of_ne (hconds p hp).2.1
  have halloc := decodeAlloc_fresh cfg htf cn oid
    (idAttrsOf oid ++ pfs.map (fun p => (p.1, (convertAttributeToXml p.2).toAttrString)))
    [] (getAttr_encoded_id cn oid _ [] hkeys)
  simp only [decodeF, halloc, XNode.attrs, XNode.children]
  rw [decodeAttributes_id_skip]
  rw [decodeAttributes_flat cfg hmap _ cn hG hP pfs oid cfg.templateIsArr [] (cacheOf oid)
    (fun p hp => ⟨(hconds p hp).1, (hconds p hp).2.1, (hconds p hp).2.2.1,
      (hconds p hp).2.2.2, rfl⟩) hnodup]
  rfl

/-- **C1 (amended).** For every object whose fields are primitives — under a
plain codec configuration (no attribute mapping, no template defaults) with
field names that are not excluded, not references, not integer-like and not
"id"/"as", on a class other than the numerically special Geometry/Point —
encode followed by decode returns an object whose number fields and
non-numeric string fields equal the originals exactly; a string field that
parses as a number comes back as that number; and a boolean field, which
encode canonicalizes to "1"/"0", is decoded by the numeric conversion to the
number 1 or 0 — loosely (`==`) equal to the original boolean but not the
boolean itself. -/
theorem c1_roundtrip_primitive_fields (cfg : CodecConfig) (o : HObj)
    (pfs : List (String × Prim)) (hmap : cfg.mapping = [])
    (htf : cfg.templateFields = []) (hoel : o.elems = [])
    (hofields : o.fields = pfs.map (fun p => (p.1, FVal.prim p.2)))
    (hG : o.cname ≠ "Geometry") (hP : o.cname ≠ "Point")
    (hconds : ∀ p ∈ pfs, isExcluded cfg p.1 = false ∧ isIntegerStr p.1 = false ∧
      isReference cfg (some p.1) = false ∧ p.1 ≠ "id" ∧ p.1 ≠ "as")
    (hnodup : (pfs.map Prod.fst).Nodup) :
    ∃ node : XNode, encodeF cfg [o] 1 0 = some (node, []) ∧
      decodeF cfg node 1 node none ⟨[], []⟩ =
        .ok ((0, ⟨[⟨o.cname, o.oid, cfg.templateIsArr, [],
          pfs.map (fun p => (p.1, FVal.prim (decodedPrim p.2)))⟩],
          cacheOf o.oid⟩), []) := by
  refine ⟨XNode.elem o.cname (idAttrsOf o.oid ++
    pfs.map (fun p => (p.1, (convertAttributeToXml p.2).toAttrString))) [], ?_, ?_⟩
  · exact encodeF_flat cfg o pfs hmap htf hoel hofields
      (fun p hp => ⟨(hconds p hp).1, (hconds p hp).2.1, (hconds p hp).2.2.1,
        (hconds p hp).2.2.2.1⟩) hnodup
  · exact decodeF_flat cfg hmap htf o.cname hG hP o.oid pfs
      (fun p hp => ⟨(hconds p hp).2.2.2.2, (hconds p hp).2.2.2.1,
        (hconds p hp).2.2.1, (hconds p hp).1⟩) hnodup 0 _

/-- Counterexample for C1 as stated: the boolean field `{flag: true}` is
canonicalized to the attribute "1" by encode, and decode maps it to the
number 1 — which is not the boolean value true. -/
theorem c1_counterexample_bool_decodes_to_number :
    encodeF ⟨[], [], [], [], false, false⟩
      [⟨"Object", none, false, [], [("flag", .prim (.bool true))]⟩] 1 0 =
      some (XNode.elem "Object" [("flag", "1")] [], []) ∧
    decodeF ⟨[], [], [], [], false, false⟩ (XNode.elem "Object" [("flag", "1")] [])
      1 (XNode.elem "Object" [("flag", "1")] []) none ⟨[], []⟩ =
      .ok ((0, ⟨[⟨"Object", none, false, [], [("flag", .prim (.num 1))]⟩], []⟩), []) ∧
    Prim.num 1 ≠ Prim.bool true :=
  ⟨rfl, rfl, by decide⟩

/-- Witness for C1: a concrete flat object with a plain string, a number, a
boolean and a numeric-looking string round-trips as the amended claim
describes. -/
theorem c1_roundtrip_primitive_fields_witness :
    ∃ node : XNode,
      encodeF ⟨[], [], [], [], false, false⟩
        [⟨"Thing", some "id1", false, [],
          [("s", .prim (.str "hello")), ("n", .prim (.num 42)),
           ("b", .prim (.bool false)), ("t", .prim (.str "7"))]⟩] 1 0 =
        some (node, []) ∧
      decodeF ⟨[], [], [], [], false, false⟩ node 1 node none ⟨[], []⟩ =
        .ok ((0, ⟨[⟨"Thing", some "id1", false, [],
          [("s", FVal.prim (decodedPrim (.str "hello"))),
           ("n", FVal.prim (decodedPrim (.num 42))),
           ("b", FVal.prim (decodedPrim (.bool false))),
           ("t", FVal.prim (decodedPrim (.str "7")))]⟩], cacheOf (some "id1")⟩), []) :=
  c1_roundtrip_primitive_fields ⟨[], [], [], [], false, false⟩
    ⟨"Thing", some "id1", false, [],
      [("s", .prim (.str "hello")), ("n", .prim (.num 42)),
       ("b", .prim (.bool false)), ("t", .prim (.str "7"))]⟩
    [("s", .str "hello"), ("n", .num 42), ("b", .bool false), ("t", .str "7")]
    rfl rfl rfl rfl (by decide) (by decide) (by decide) (by decide)

/-! ## Excluded fields (C3) -/

/-- The value of the named field of the heap object at address `i`. -/
def lookupField (h : Heap) (i : Nat) (f : String) : Option FVal :=
  (h[i]?).bind (fun o => (o.fields.find? (fun p => p.1 == f)).map (fun p => p.2))

/-- The value a freshly cloned template carries for the named field. -/
def templFieldVal (cfg : CodecConfig) (f : String) : Option FVal :=
  (cfg.templateFields.find? (fun p => p.1 == f)).map (fun p => FVal.prim p.2)

/-- Between an earlier and a later decoder heap, the field `f` was never
assigned: existing objects keep their `f` value and objects created in
between carry the template's `f` default. -/
def ExcludedPreserved (cfg : CodecConfig) (f : String) (h0 h1 : Heap) : Prop :=
  h0.length ≤ h1.length ∧
  (∀ i, i < h0.length → lookupField h1 i f = lookupField h0 i f) ∧
  (∀ i, h0.length ≤ i → i < h1.length → lookupField h1 i f = templFieldVal cfg f)

theorem ExcludedPreserved.rfl {cfg : CodecConfig} {f : String} (h : Heap) :
    ExcludedPreserved cfg f h h :=
  ⟨Nat.le_refl _, fun _ _ => Eq.refl _, fun _ h1 h2 => absurd (Nat.lt_of_le_of_lt h1 h2)
    (Nat.lt_irrefl _)⟩

theorem ExcludedPreserved.trans {cfg : CodecConfig} {f : String} {h0 h1 h2 : Heap}
    (a : ExcludedPreserved cfg f h0 h1) (b : ExcludedPreserved cfg f h1 h2) :
    ExcludedPreserved cfg f h0 h2 := by
  obtain ⟨al, ap, an⟩ := a
  obtain ⟨bl, bp, bn⟩ := b
  refine ⟨Nat.le_trans al bl, ?_, ?_⟩
  · intro i hi
    rw [bp i (Nat.lt_of_lt_of_le hi al), ap i hi]
  · intro i hi1 hi2
    by_cases hmid : i < h1.length
    · rw [bp i hmid, an i hi1 hmid]
    · exact bn i (Nat.le_of_not_lt hmid) hi2

theorem find?_overwrite (fs : List (String × FVal)) (k : String) (v : FVal)
    (f : String) (h : (k == f) = false) :
    (fs.map (fun p => if p.1 == k then (k, v) else p)).find? (fun p => p.1 == f) =
      fs.find? (fun p => p.1 == f) := by
  induction fs with
  | nil => rfl
  | cons p rest ih =>
    rw [List.map_cons]
    by_cases hpk : (p.1 == k) = true
    · rw [if_pos hpk, List.find?_cons, List.find?_cons]
      have h2 : ((k, v).1 == f) = false := h
      have h3 : (p.1 == f) = false := by
        rw [show p.1 = k by simpa using hpk]
        exact h
      rw [h2, h3]
      exact ih
    · rw [if_neg hpk, List.find?_cons, List.find?_cons]
      cases hpf : (p.1 == f) with
      | true => rfl
      | false => exact ih

theorem find?_concat_ne (fs : List (String × FVal)) (k : String) (v : FVal)
    (f : String) (h : (k == f) = false) :
    (fs ++ [(k, v)]).find? (fun p => p.1 == f) = fs.find? (fun p => p.1 == f) := by
  induction fs with
  | nil =>
    rw [List.nil_append, List.find?_cons]
    have h2 : ((k, v).1 == f) = false := h
    rw [h2]
  | cons p rest ih =>
    rw [List.cons_append, List.find?_cons, List.find?_cons]
    cases hpf : (p.1 == f) with
    | true => rfl
    | false => exact ih

theorem find?_setFieldList_ne (fs : List (String × FVal)) (k : String) (v : FVal)
    (f : String) (h : (k == f) = false) :
    (setFieldList fs k v).find? (fun p => p.1 == f) = fs.find? (fun p => p.1 == f) := by
  unfold setFieldList
  split
  · exact find?_overwrite fs k v f h
  · exact find?_concat_ne fs k v f h

theorem lookupField_set (st : DecState) (a : Nat) (n : String) (v : FVal)
    (f : String) (hn : (n == f) = false) (i : Nat) :
    lookupField (setHeapField st a n v).heap i f = lookupField st.heap i f := by
  unfold setHeapField
  cases hsome : st.heap[a]? with
  | none => rfl
  | some o =>
    simp only
    unfold lookupField
    by_cases hia : i = a
    · subst hia
      simp [List.getElem?_set_self', hsome, Function.const,
        find?_setFieldList_ne o.fields n v f hn]
    · rw [List.getElem?_set_ne (Ne.symm hia)]

theorem length_setHeapField (st : DecState) (a : Nat) (n : String) (v : FVal) :
    (setHeapField st a n v).heap.length = st.heap.length := by
  unfold setHeapField
  cases st.heap[a]? with
  | none => rfl
  | some o => simp [List.length_set]

theorem EP_setHeapField (cfg : CodecConfig) (f : String) (st : DecState)
    (a : Nat) (n : String) (v : FVal) (hn : (n == f) = false) :
    ExcludedPreserved cfg f st.heap (setHeapField st a n v).heap := by
  refine ⟨by rw [length_setHeapField], ?_, ?_⟩
  · intro i hi
    exact lookupField_set st a n v f hn i
  · intro i hi1 hi2
    rw [length_setHeapField] at hi2
    exact absurd (Nat.lt_of_le_of_lt hi1 hi2) (Nat.lt_irrefl _)

theorem find?_primMap (tf : List (String × Prim)) (f : String) :
    ((tf.map (fun p => (p.1, FVal.prim p.2))).find? (fun p => p.1 == f)).map
      (fun p => p.2) = (tf.find? (fun p => p.1 == f)).map (fun p => FVal.prim p.2) := by
  induction tf with
  | nil => rfl
  | cons p rest ih =>
    simp only [List.map_cons, List.find?_cons]
    cases hpf : (p.1 == f) with
    | true => rfl
    | false => exact ih

theorem EP_append_clone (cfg : CodecConfig) (f : String) (h : Heap) (node : XNode)
    (idAttr : Option String) :
    ExcludedPreserved cfg f h (h ++ [cloneTemplate cfg node idAttr]) := by
  refine ⟨by simp, ?_, ?_⟩
  · intro i hi
    unfold lookupField
    rw [List.getElem?_append, if_pos hi]
  · intro i hi1 hi2
    rw [List.length_append, List.length_singleton] at hi2
    have hieq : i = h.length := by omega
    subst hieq
    unfold lookupField
    rw [show (h ++ [cloneTemplate cfg node idAttr])[h.length]? =
      some (cloneTemplate cfg node idAttr) by simp]
    show ((cloneTemplate cfg node idAttr).fields.find? (fun p => p.1 == f)).map
      (fun p => p.2) = _
    unfold cloneTemplate templFieldVal
    simp only
    exact find?_primMap cfg.templateFields f

theorem EP_decodeAlloc (cfg : CodecConfig) (f : String) (node : XNode)
    (into : Option Nat) (st : DecState) :
    ExcludedPreserved cfg f st.heap (decodeAlloc cfg node into st).2.heap := by
  unfold decodeAlloc
  cases (node.getAttr "id").bind
      (fun i => (st.cache.find? (fun p => p.1 == i)).map (fun p => p.2)) with
  | some a => exact .rfl _
  | none =>
    cases node.getAttr "id" with
    | some i =>
      cases into with
      | some a => exact .rfl _
      | none => exact EP_append_clone cfg f st.heap node (some i)
    | none =>
      cases into with
      | some a => exact .rfl _
      | none => exact EP_append_clone cfg f st.heap node none

theorem EP_set_obj (cfg : CodecConfig) (f : String) (h : Heap) (a : Nat)
    (o o' : HObj) (ha : h[a]? = some o)
    (hfind : (o'.fields.find? (fun p => p.1 == f)).map (fun p => p.2) =
      (o.fields.find? (fun p => p.1 == f)).map (fun p => p.2)) :
    ExcludedPreserved cfg f h (h.set a o') := by
  refine ⟨by rw [List.length_set], ?_, ?_⟩
  · intro i hi
    unfold lookupField
    by_cases hia : i = a
    · subst hia
      rw [List.getElem?_set_self', ha]
      exact hfind
    · rw [List.getElem?_set_ne (Ne.symm hia)]
  · intro i hi1 hi2
    rw [List.length_set] at hi2
    exact absurd (Nat.lt_of_le_of_lt hi1 hi2) (Nat.lt_irrefl _)

theorem EP_getObjectHO (cfg : CodecConfig) (f : String) (doc : XNode)
    (recur : XNode → Option Nat → DecState → DRes ((Nat × DecState) × List String))
    (hrec : ∀ n i s r, recur n i s = .ok r →
      ExcludedPreserved cfg f s.heap r.1.2.heap)
    (id : String) (st : DecState) (r : (Option Nat × DecState) × List String)
    (h : getObjectHO doc recur id st = .ok r) :
    ExcludedPreserved cfg f st.heap r.1.2.heap := by
  unfold getObjectHO at h
  split at h
  · cases h; exact .rfl _
  · split at h
    · cases h; exact .rfl _
    · split at h
      · next a st2 ws heq =>
        cases h
        exact hrec _ _ _ _ heq
      · exact DRes.noConfusion h
      · exact DRes.noConfusion h

theorem excluded_attr_ne {cfg : CodecConfig} {f n : String}
    (hf : isExcluded cfg f = true) (hn : isExcluded cfg n = false) :
    (n == f) = false := by
  apply beq_false_of_ne
  intro hEq
  rw [hEq, hf] at hn
  exact Bool.noConfusion hn

theorem EP_decodeAttribute (cfg : CodecConfig) (f : String)
    (hf : isExcluded cfg f = true)
    (getObj : String → DecState → DRes ((Option Nat × DecState) × List String))
    (hg : ∀ id st r, getObj id st = .ok r →
      ExcludedPreserved cfg f st.heap r.1.2.heap)
    (a : Nat) (attr : String × String) (st : DecState)
    (res : DecState × List String)
    (h : decodeAttribute cfg getObj a attr st = .ok res) :
    ExcludedPreserved cfg f st.heap res.1.heap := by
  unfold decodeAttribute at h
  split at h
  · cases h; exact .rfl _
  · split at h
    · split at h
      · next st2 ws heq =>
        cases h
        exact hg _ _ _ heq
      · next b st2 ws heq =>
        have hst2 := hg _ _ _ heq
        split at h
        · next hex =>
          cases h
          refine hst2.trans (EP_setHeapField cfg f st2 a attr.1 _ ?_)
          exact excluded_attr_ne hf (by
            cases hisex : isExcluded cfg attr.1 with
            | false => rfl
            | true => rw [hisex] at hex; exact absurd hex (by decide))
        · cases h
          exact hst2
      · exact DRes.noConfusion h
      · exact DRes.noConfusion h
    · split at h
      · next hex =>
        cases h
        refine EP_setHeapField cfg f st a attr.1 _ ?_
        exact excluded_attr_ne hf (by
          cases hisex : isExcluded cfg attr.1 with
          | false => rfl
          | true => rw [hisex] at hex; exact absurd hex (by decide))
      · cases h
        exact .rfl _

theorem EP_decodeAttributes (cfg : CodecConfig) (f : String)
    (hf : isExcluded cfg f = true)
    (getObj : String → DecState → DRes ((Option Nat × DecState) × List String))
    (hg : ∀ id st r, getObj id st = .ok r →
      ExcludedPreserved cfg f st.heap r.1.2.heap) (a : Nat) :
    ∀ (attrs : List (String × String)) (st : DecState) (res : DecState × List String),
    decodeAttributes cfg getObj a attrs st = .ok res →
    ExcludedPreserved cfg f st.heap res.1.heap := by
  intro attrs
  induction attrs with
  | nil =>
    intro st res h
    cases h
    exact .rfl _
  | cons attr rest ih =>
    intro st res h
    simp only [decodeAttributes] at h
    cases h1 : decodeAttribute cfg getObj a attr st with
    | ok pr =>
      obtain ⟨st1, w1⟩ := pr
      simp only [h1] at h
      cases h2 : decodeAttributes cfg getObj a rest st1 with
      | ok pr2 =>
        obtain ⟨st2, w2⟩ := pr2
        simp only [h2] at h
        cases h
        exact (EP_decodeAttribute cfg f hf getObj hg a attr st (st1, w1) h1).trans
          (ih st1 (st2, w2) h2)
      | err e => simp only [h2] at h; exact DRes.noConfusion h
      | out => simp only [h2] at h; exact DRes.noConfusion h
    | err e => simp only [h1] at h; exact DRes.noConfusion h
    | out => simp only [h1] at h; exact DRes.noConfusion h

theorem addObjectValue_find?_ne (cfg : CodecConfig) (f : String)
    (hf : isExcluded cfg f = true) (o o' : HObj) (fieldname : Option String)
    (value template : Option FVal)
    (hfn : fieldname = none ∨
      ∃ fn, fieldname = some fn ∧ isExcluded cfg fn = false)
    (h : addObjectValue o fieldname value template = .ok o') :
    (o'.fields.find? (fun p => p.1 == f)).map (fun p => p.2) =
      (o.fields.find? (fun p => p.1 == f)).map (fun p => p.2) := by
  unfold addObjectValue at h
  split at h
  · cases h; rfl
  · split at h
    · cases h; rfl
    · rcases hfn with hnone | ⟨fn, hsome, hex⟩
      · subst hnone
        simp only [] at h
        split at h
        · cases h; rfl
        · exact Except.noConfusion h
      · subst hsome
        simp only [] at h
        split at h
        · cases h
          simp only
          rw [find?_setFieldList_ne o.fields fn _ f (excluded_attr_ne hf hex)]
        · split at h
          · cases h; rfl
          · exact Except.noConfusion h

theorem EP_decodeChildStore (cfg : CodecConfig) (f : String)
    (hf : isExcluded cfg f = true) (child : XNode) (a : Nat)
    (fieldname : Option String) (value template : Option FVal) (st : DecState)
    (res : DecState × List String)
    (hfn : fieldname = none ∨
      ∃ fn, fieldname = some fn ∧ isExcluded cfg fn = false)
    (h : decodeChildStore child a fieldname value template st = .ok res) :
    ExcludedPreserved cfg f st.heap res.1.heap := by
  unfold decodeChildStore at h
  cases ho : st.heap[a]? with
  | none => simp only [ho] at h; cases h; exact .rfl _
  | some o =>
    simp only [ho] at h
    cases hav : addObjectValue o fieldname value template with
    | ok o' =>
      simp only [hav] at h
      cases h
      exact EP_set_obj cfg f st.heap a o o' ho
        (addObjectValue_find?_ne cfg f hf o o' fieldname value template hfn hav)
    | error e =>
      simp only [hav] at h
      exact DRes.noConfusion h

theorem EP_decodeChild (cfg : CodecConfig) (f : String)
    (hf : isExcluded cfg f = true)
    (recur : XNode → Option Nat → DecState → DRes ((Nat × DecState) × List String))
    (hr : ∀ n i s r, recur n i s = .ok r →
      ExcludedPreserved cfg f s.heap r.1.2.heap)
    (child : XNode) (a : Nat) (st : DecState) (res : DecState × List String)
    (h : decodeChild cfg recur child a st = .ok res) :
    ExcludedPreserved cfg f st.heap res.1.heap := by
  unfold decodeChild at h
  simp only [] at h
  split at h
  · next hguard =>
    have hfn : ((child.getAttr "as").map (getFieldName cfg)) = none ∨
        ∃ fn, ((child.getAttr "as").map (getFieldName cfg)) = some fn ∧
          isExcluded cfg fn = false := by
      cases hc : (child.getAttr "as").map (getFieldName cfg) with
      | none => exact Or.inl rfl
      | some fn =>
        refine Or.inr ⟨fn, rfl, ?_⟩
        rw [hc] at hguard
        have hsn : ((some fn : Option String) == none) = false := rfl
        rw [hsn, Bool.false_or, Option.getD_some] at hguard
        cases hex : isExcluded cfg fn with
        | false => rfl
        | true => rw [hex] at hguard; exact absurd hguard (by decide)
    split at h
    · exact EP_decodeChildStore cfg f hf child a _ _ _ st res hfn h
    · split at h
      · split at h
        · exact EP_decodeChildStore cfg f hf child a _ _ _ st res hfn h
        · split at h
          · next b st' ws heq =>
            split at h
            · next st2 ws2 heq2 =>
              cases h
              exact (hr child none st _ heq).trans
                (EP_decodeChildStore cfg f hf child a _ _ _ st' (st2, ws2) hfn heq2)
            · exact DRes.noConfusion h
            · exact DRes.noConfusion h
          · exact DRes.noConfusion h
          · exact DRes.noConfusion h
      · next t heq0 =>
        split at h
        · next b st' ws heq =>
          split at h
          · next st2 ws2 heq2 =>
            cases h
            exact (hr child (some t) st _ heq).trans
              (EP_decodeChildStore cfg f hf child a _ _ _ st' (st2, ws2) hfn heq2)
          · exact DRes.noConfusion h
          · exact DRes.noConfusion h
        · exact DRes.noConfusion h
        · exact DRes.noConfusion h
      · split at h
        · next b st' ws heq =>
          split at h
          · next st2 ws2 heq2 =>
            cases h
            exact (hr child none st _ heq).trans
              (EP_decodeChildStore cfg f hf child a _ _ _ st' (st2, ws2) hfn heq2)
          · exact DRes.noConfusion h
          · exact DRes.noConfusion h
        · exact DRes.noConfusion h
        · exact DRes.noConfusion h
  · cases h
    exact .rfl _

theorem EP_decodeChildren (cfg : CodecConfig) (f : String)
    (hf : isExcluded cfg f = true)
    (recur : XNode → Option Nat → DecState → DRes ((Nat × DecState) × List String))
    (hr : ∀ n i s r, recur n i s = .ok r →
      ExcludedPreserved cfg f s.heap r.1.2.heap) (a : Nat) :
    ∀ (cs : List XNode) (st : DecState) (res : DecState × List String),
    decodeChildren cfg recur a cs st = .ok res →
    ExcludedPreserved cfg f st.heap res.1.heap := by
  intro cs
  induction cs with
  | nil =>
    intro st res h
    cases h
    exact .rfl _
  | cons c rest ih =>
    intro st res h
    unfold decodeChildren at h
    split at h
    · exact ih st res h
    · split at h
      · next st' ws heq =>
        split at h
        · next st2 ws2 heq2 =>
          cases h
          exact (EP_decodeChild cfg f hf recur hr c a st (st', ws) heq).trans
            (ih st' (st2, ws2) heq2)
        · exact DRes.noConfusion h
        · exact DRes.noConfusion h
      · exact DRes.noConfusion h
      · exact DRes.noConfusion h

theorem EP_decodeF (cfg : CodecConfig) (f : String)
    (hf : isExcluded cfg f = true) (doc : XNode) :
    ∀ (fuel : Nat) (node : XNode) (into : Option Nat) (st : DecState)
      (r : (Nat × DecState) × List String),
    decodeF cfg doc fuel node into st = .ok r →
    ExcludedPreserved cfg f st.heap r.1.2.heap := by
  intro fuel
  induction fuel with
  | zero =>
    intro node into st r h
    exact DRes.noConfusion h
  | succ fuel ih =>
    intro node into st r h
    unfold decodeF at h
    simp only [] at h
    split at h
    · next st2 ws heq =>
      split at h
      · next st3 ws2 heq2 =>
        cases h
        have e1 : ExcludedPreserved cfg f st.heap (decodeAlloc cfg node into st).2.heap :=
          EP_decodeAlloc cfg f node into st
        have e2 : ExcludedPreserved cfg f (decodeAlloc cfg node into st).2.heap st2.heap := by
          refine EP_decodeAttributes cfg f hf _ ?_ _ _ _ _ heq
          intro id s r' hg
          exact EP_getObjectHO cfg f doc _ (fun n i s' r'' hrec => ih n i s' r'' hrec) id s r' hg
        have e3 : ExcludedPreserved cfg f st2.heap st3.heap :=
          EP_decodeChildren cfg f hf _ (fun n i s' r'' hrec => ih n i s' r'' hrec) _ _ _ _ heq2
        exact e1.trans (e2.trans e3)
      · exact DRes.noConfusion h
      · exact DRes.noConfusion h
    · exact DRes.noConfusion h
    · exact DRes.noConfusion h

theorem encodeFields_skip_excluded (cfg : CodecConfig) (heap : Heap)
    (recur : Nat → Option (XNode × List String)) (cname g : String)
    (hex : isExcluded cfg g = true) (v : FVal) (rest : List (String × FVal))
    (node : XNode) :
    encodeFields cfg heap recur cname ((g, v) :: rest) node =
      encodeFields cfg heap recur cname rest node := by
  simp only [encodeFields, hex, Bool.not_true, Bool.false_eq_true, if_false]

theorem encodeFields_filter_ne (cfg : CodecConfig) (f : String)
    (hf : isExcluded cfg f = true) (heap : Heap)
    (recur : Nat → Option (XNode × List String)) (cname : String) :
    ∀ (l : List (String × FVal)) (node : XNode),
    encodeFields cfg heap recur cname l node =
      encodeFields cfg heap recur cname
        (l.filter (fun p => !(p.1 == f))) node := by
  intro l
  induction l with
  | nil => intro node; rfl
  | cons p rest ih =>
    intro node
    obtain ⟨g, v⟩ := p
    by_cases hgf : g = f
    · subst hgf
      have hl : List.filter (fun p => !(p.1 == g)) ((g, v) :: rest) =
          List.filter (fun p => !(p.1 == g)) rest := by
        simp [List.filter_cons]
      rw [hl, encodeFields_skip_excluded cfg heap recur cname g hf v rest node]
      exact ih node
    · have hl : List.filter (fun p => !(p.1 == f)) ((g, v) :: rest) =
          (g, v) :: List.filter (fun p => !(p.1 == f)) rest := by
        simp [List.filter_cons, beq_false_of_ne hgf]
      rw [hl]
      cases hex : isExcluded cfg g with
      | true =>
        rw [encodeFields_skip_excluded cfg heap recur cname g hex v rest node,
          encodeFields_skip_excluded cfg heap recur cname g hex v _ node]
        exact ih node
      | false =>
        simp only [encodeFields, hex, Bool.not_false, if_true]
        cases hv : encodeValue cfg heap recur cname
            (if isIntegerStr g then none else some g) v node with
        | none => rfl
        | some pr =>
          obtain ⟨node', ws⟩ := pr
          simp only [ih node']

/-- **C3.** For every field name `f` listed in the codec's `exclude` array or
equal to the object-identity field name (`isExcluded`): the encoder's field
loop produces exactly the output it would produce if every `f` entry were
absent from the field list — so no attribute and no child is emitted for `f`,
regardless of its value — and a successful decode never assigns `f`: every
object already on the heap keeps its `f` value unchanged and every object the
decode creates carries the codec template's default for `f`, regardless of the
attributes in the input node. -/
theorem c3_excluded_fields_inert (cfg : CodecConfig) (f : String)
    (hf : isExcluded cfg f = true) :
    (∀ (heap : Heap) (recur : Nat → Option (XNode × List String))
       (cname : String) (l : List (String × FVal)) (node : XNode),
       encodeFields cfg heap recur cname l node =
         encodeFields cfg heap recur cname
           (l.filter (fun p => !(p.1 == f))) node) ∧
    (∀ (doc : XNode) (fuel : Nat) (node : XNode) (into : Option Nat)
       (st : DecState) (r : (Nat × DecState) × List String),
       decodeF cfg doc fuel node into st = .ok r →
       ExcludedPreserved cfg f st.heap r.1.2.heap) :=
  ⟨fun heap recur cname l node =>
      encodeFields_filter_ne cfg f hf heap recur cname l node,
    fun doc fuel node into st r h => EP_decodeF cfg f hf doc fuel node into st r h⟩

/-- The concrete codec configuration of the C3 witness: `secret` is excluded
and carries the template default `99`. -/
def c3cfgW : CodecConfig := ⟨["secret"], [], [], [("secret", Prim.num 99)], false, false⟩

/-- The concrete input node of the C3 witness: it carries a `secret`
attribute that decode must not assign. -/
def c3nodeW : XNode := XNode.elem "Obj" [("secret", "42"), ("x", "7")] []

/-- The result state of the C3 witness decode: `secret` still holds the
template default `99` while `x` was assigned. -/
def c3resW : (Nat × DecState) × List String :=
  ((0, ⟨[⟨"Obj", none, false, [],
    [("secret", FVal.prim (Prim.num 99)), ("x", FVal.prim (Prim.num 7))]⟩], []⟩), [])

theorem c3_excluded_fields_inert_witness :
    isExcluded c3cfgW "secret" = true ∧
    encodeFields c3cfgW [] (fun _ => none) "Obj"
        [("secret", FVal.prim (Prim.num 5)), ("x", FVal.prim (Prim.num 1))]
        (XNode.elem "Obj" [] []) =
      encodeFields c3cfgW [] (fun _ => none) "Obj"
        (([("secret", FVal.prim (Prim.num 5)),
           ("x", FVal.prim (Prim.num 1))]).filter (fun p => !(p.1 == "secret")))
        (XNode.elem "Obj" [] []) ∧
    decodeF c3cfgW c3nodeW 1 c3nodeW none ⟨[], []⟩ = .ok c3resW ∧
    ExcludedPreserved c3cfgW "secret" [] c3resW.1.2.heap :=
  ⟨by decide,
    (c3_excluded_fields_inert c3cfgW "secret" (by decide)).1 [] (fun _ => none)
      "Obj" [("secret", FVal.prim (Prim.num 5)), ("x", FVal.prim (Prim.num 1))]
      (XNode.elem "Obj" [] []),
    by rfl,
    (c3_excluded_fields_inert c3cfgW "secret" (by decide)).2 c3nodeW 1 c3nodeW
      none ⟨[], []⟩ c3resW (by rfl)⟩

end MaxGraph
